import Mathlib

/-!
Verification of the synchronization/ingestion engine of deadlock-stats-cli.

The Rust sources (src/db.rs, src/deadlock.rs, src/main.rs, src/models.rs,
src/steam.rs) are shallowly embedded below:

* SQL tables become `Table κ ρ`: a partial map from primary key to row plus
  the list of keys in insertion order (used for counting rows).
  `INSERT ... ON CONFLICT (k) DO UPDATE` becomes `Table.upsert M`, where the
  merge function `M old incoming` is read off the `DO UPDATE SET` clause;
  `ON CONFLICT DO NOTHING` is the merge `keepFirst`.
* jsonb blobs become association lists of string keys and opaque scalar
  values; the Postgres `||` operator becomes `blobUnion` (shallow key union,
  right side wins on a key collision).
* The retry loop of `DeadlockClient::get_json` becomes a fuel-indexed
  recursion over an oracle of HTTP responses, recording every sleep.
* The `matches sync` orchestration in `main.rs` becomes pure functions over
  candidate lists and per-chunk fetch outcomes.

Machine integer subtleties that matter to the claims (`as i32` casts in
db.rs) are modelled with explicit wrap-around arithmetic on `Int`.
-/

namespace DeadlockCLI

/-! ## Generic keyed table with merge upsert -/

universe u v

variable {κ : Type u} {ρ : Type v}

structure Table (κ : Type u) (ρ : Type v) where
  keys : List κ
  val : κ → Option ρ

def Table.empty : Table κ ρ := ⟨[], fun _ => none⟩

def Table.rowCount (t : Table κ ρ) : Nat := t.keys.length

/-- `INSERT ... VALUES e ON CONFLICT (k) DO UPDATE SET ...` with merge `M`:
a fresh key stores the incoming row and appends the key; an existing key
keeps its position and stores `M old incoming`. -/
def Table.upsert [DecidableEq κ] (M : ρ → ρ → ρ) (k : κ) (e : ρ) (t : Table κ ρ) :
    Table κ ρ where
  keys := if (t.val k).isSome then t.keys else t.keys ++ [k]
  val := fun q =>
    if q = k then
      some (match t.val k with
            | some r => M r e
            | none => e)
    else t.val q

/-- The merge of `ON CONFLICT ... DO NOTHING`: the stored row wins. -/
def keepFirst (r _e : ρ) : ρ := r

def Table.applyOps [DecidableEq κ] (M : ρ → ρ → ρ) (ops : List (κ × ρ)) (t : Table κ ρ) :
    Table κ ρ :=
  ops.foldl (fun t p => t.upsert M p.1 p.2) t

theorem Table.eq_of_parts {t₁ t₂ : Table κ ρ} (hk : t₁.keys = t₂.keys)
    (hv : t₁.val = t₂.val) : t₁ = t₂ := by
  cases t₁; cases t₂; simp_all

@[simp] theorem Table.applyOps_nil [DecidableEq κ] (M : ρ → ρ → ρ) (t : Table κ ρ) :
    Table.applyOps M [] t = t := rfl

theorem Table.applyOps_cons [DecidableEq κ] (M : ρ → ρ → ρ) (p : κ × ρ)
    (ops : List (κ × ρ)) (t : Table κ ρ) :
    Table.applyOps M (p :: ops) t = Table.applyOps M ops (t.upsert M p.1 p.2) := rfl

theorem Table.applyOps_append [DecidableEq κ] (M : ρ → ρ → ρ) (l₁ l₂ : List (κ × ρ))
    (t : Table κ ρ) :
    Table.applyOps M (l₁ ++ l₂) t = Table.applyOps M l₂ (Table.applyOps M l₁ t) :=
  List.foldl_append _ _ _ _

/-- One merge step on an optional stored row. -/
def mergeStep (M : ρ → ρ → ρ) (o : Option ρ) (e : ρ) : ρ :=
  match o with
  | some r => M r e
  | none => e

/-- Folding a list of incoming rows into an optional stored row. -/
def foldOpt (M : ρ → ρ → ρ) : Option ρ → List ρ → Option ρ
  | o, [] => o
  | o, e :: es => foldOpt M (some (mergeStep M o e)) es

/-- The incoming rows of `ops` aimed at key `q`, in order. -/
def valsAt [DecidableEq κ] (q : κ) (ops : List (κ × ρ)) : List ρ :=
  (ops.filter (fun p => decide (p.1 = q))).map Prod.snd

theorem Table.val_upsert [DecidableEq κ] (M : ρ → ρ → ρ) (k : κ) (e : ρ)
    (t : Table κ ρ) (q : κ) :
    (t.upsert M k e).val q =
      if q = k then some (mergeStep M (t.val k) e) else t.val q := by
  simp only [Table.upsert, mergeStep]

theorem Table.val_applyOps [DecidableEq κ] (M : ρ → ρ → ρ) (ops : List (κ × ρ))
    (t : Table κ ρ) (q : κ) :
    (Table.applyOps M ops t).val q = foldOpt M (t.val q) (valsAt q ops) := by
  induction ops generalizing t with
  | nil => rfl
  | cons p ops ih =>
    rw [Table.applyOps_cons, ih]
    by_cases h : p.1 = q
    · subst h
      simp [valsAt, List.filter_cons, foldOpt, Table.val_upsert]
    · have hq : ¬ q = p.1 := fun hq => h hq.symm
      simp [valsAt, List.filter_cons, h, Table.val_upsert, hq]

theorem Table.isSome_val_upsert_self [DecidableEq κ] (M : ρ → ρ → ρ) (k : κ) (e : ρ)
    (t : Table κ ρ) : ((t.upsert M k e).val k).isSome := by
  simp [Table.val_upsert]

theorem Table.isSome_val_upsert_mono [DecidableEq κ] (M : ρ → ρ → ρ) (k : κ) (e : ρ)
    (t : Table κ ρ) (q : κ) (h : (t.val q).isSome) :
    ((t.upsert M k e).val q).isSome := by
  rw [Table.val_upsert]
  by_cases hq : q = k <;> simp [hq, h]

theorem Table.isSome_val_applyOps_mono [DecidableEq κ] (M : ρ → ρ → ρ)
    (ops : List (κ × ρ)) (t : Table κ ρ) (q : κ) (h : (t.val q).isSome) :
    ((Table.applyOps M ops t).val q).isSome := by
  induction ops generalizing t with
  | nil => exact h
  | cons p ops ih =>
    rw [Table.applyOps_cons]
    exact ih _ (Table.isSome_val_upsert_mono _ _ _ _ _ h)

theorem Table.isSome_applyOps_of_mem [DecidableEq κ] (M : ρ → ρ → ρ)
    (ops : List (κ × ρ)) (t : Table κ ρ) (p : κ × ρ) (hp : p ∈ ops) :
    ((Table.applyOps M ops t).val p.1).isSome := by
  induction ops generalizing t with
  | nil => cases hp
  | cons q ops ih =>
    rw [Table.applyOps_cons]
    rcases List.mem_cons.mp hp with h | h
    · subst h
      exact Table.isSome_val_applyOps_mono _ _ _ _
        (Table.isSome_val_upsert_self _ _ _ _)
    · exact ih _ h

theorem Table.keys_upsert_of_isSome [DecidableEq κ] (M : ρ → ρ → ρ) (k : κ) (e : ρ)
    (t : Table κ ρ) (h : (t.val k).isSome) : (t.upsert M k e).keys = t.keys := by
  simp [Table.upsert, h]

theorem Table.keys_applyOps_of_all_present [DecidableEq κ] (M : ρ → ρ → ρ)
    (ops : List (κ × ρ)) (t : Table κ ρ)
    (h : ∀ p ∈ ops, ((t.val p.1).isSome : Prop)) :
    (Table.applyOps M ops t).keys = t.keys := by
  induction ops generalizing t with
  | nil => rfl
  | cons p ops ih =>
    rw [Table.applyOps_cons]
    rw [ih _ (fun q hq => Table.isSome_val_upsert_mono _ _ _ _ _ (h q (List.mem_cons_of_mem _ hq)))]
    exact Table.keys_upsert_of_isSome _ _ _ _ (h p (List.mem_cons_self _ _))

/-! Associative idempotent merges absorb a repeated batch. -/

theorem foldl_merge_assoc (M : ρ → ρ → ρ)
    (hA : ∀ a b c, M (M a b) c = M a (M b c)) (a b : ρ) (l : List ρ) :
    List.foldl M (M a b) l = M a (List.foldl M b l) := by
  induction l generalizing b with
  | nil => rfl
  | cons c l ih => rw [List.foldl_cons, List.foldl_cons, hA, ih]

theorem foldOpt_some (M : ρ → ρ → ρ) (r : ρ) (es : List ρ) :
    foldOpt M (some r) es = some (List.foldl M r es) := by
  induction es generalizing r with
  | nil => rfl
  | cons e es ih => rw [foldOpt, List.foldl_cons]; exact ih _

theorem foldOpt_twice (M : ρ → ρ → ρ)
    (hA : ∀ a b c, M (M a b) c = M a (M b c)) (hI : ∀ a, M a a = a)
    (o : Option ρ) (es : List ρ) :
    foldOpt M (foldOpt M o es) es = foldOpt M o es := by
  cases es with
  | nil => rfl
  | cons e es =>
    cases o with
    | none =>
      have hP : foldOpt M none (e :: es) = some (List.foldl M e es) := by
        rw [foldOpt]; simp only [mergeStep]; exact foldOpt_some M e es
      rw [hP, foldOpt]
      simp only [mergeStep]
      rw [foldOpt_some, foldl_merge_assoc M hA, hI]
    | some r =>
      have h1 : foldOpt M (some r) (e :: es) = some (M r (List.foldl M e es)) := by
        rw [foldOpt_some, List.foldl_cons, foldl_merge_assoc M hA]
      rw [h1, foldOpt]
      simp only [mergeStep]
      rw [foldOpt_some, foldl_merge_assoc M hA, hA, hI]

/-- Re-applying an identical batch of merge upserts is a no-op, provided the
merge is associative and idempotent. -/
theorem Table.applyOps_applyOps [DecidableEq κ] (M : ρ → ρ → ρ)
    (hA : ∀ a b c, M (M a b) c = M a (M b c)) (hI : ∀ a, M a a = a)
    (ops : List (κ × ρ)) (t : Table κ ρ) :
    Table.applyOps M ops (Table.applyOps M ops t) = Table.applyOps M ops t := by
  refine Table.eq_of_parts ?_ ?_
  · exact Table.keys_applyOps_of_all_present M ops _
      (fun p hp => Table.isSome_applyOps_of_mem M ops t p hp)
  · funext q
    rw [Table.val_applyOps, Table.val_applyOps]
    exact foldOpt_twice M hA hI _ _

/-- An `ON CONFLICT DO NOTHING` upsert on a key that is already stored leaves
the table unchanged. -/
theorem Table.upsert_keepFirst_of_present [DecidableEq κ] (k : κ) (e : ρ)
    (t : Table κ ρ) (h : (t.val k).isSome) :
    t.upsert keepFirst k e = t := by
  refine Table.eq_of_parts (Table.keys_upsert_of_isSome _ _ _ _ h) ?_
  funext q
  rw [Table.val_upsert]
  by_cases hq : q = k
  · subst hq
    rcases Option.isSome_iff_exists.mp h with ⟨r, hr⟩
    simp [hr, mergeStep, keepFirst]
  · simp [hq]

/-! ## jsonb blobs and the Postgres shallow-union operator -/

/-- A JSON scalar value stored inside a blob. `||` on Postgres jsonb objects
never inspects the values, so blob values are opaque atoms here. -/
inductive Jval where
  | jnull : Jval
  | jbool : Bool → Jval
  | jnum : Int → Jval
  | jstr : String → Jval
deriving DecidableEq, Repr

/-- A jsonb object: association list from string keys to values. -/
abbrev Blob := List (String × Jval)

def hasKeyB (b : Blob) (k : String) : Bool := b.any (fun kv => kv.1 == k)

/-- Postgres `a || b` on jsonb objects: shallow key union, the right-hand
side wins on a key collision. -/
def blobUnion (a b : Blob) : Blob :=
  a.filter (fun kv => !(hasKeyB b kv.1)) ++ b

def blobLookup (b : Blob) (k : String) : Option Jval :=
  (b.find? (fun kv => kv.1 == k)).map Prod.snd

theorem hasKeyB_append (x y : Blob) (k : String) :
    hasKeyB (x ++ y) k = (hasKeyB x k || hasKeyB y k) := by
  simp [hasKeyB, List.any_append]

theorem hasKeyB_of_mem (b : Blob) (kv : String × Jval) (h : kv ∈ b) :
    hasKeyB b kv.1 = true :=
  List.any_eq_true.mpr ⟨kv, h, by simp⟩

theorem hasKeyB_filterNot (a c : Blob) (k : String) :
    hasKeyB (a.filter (fun kv => !(hasKeyB c kv.1))) k
      = (hasKeyB a k && !(hasKeyB c k)) := by
  cases ha : hasKeyB a k with
  | false =>
    simp only [Bool.false_and]
    cases h : hasKeyB (a.filter (fun kv => !(hasKeyB c kv.1))) k with
    | false => rfl
    | true =>
      rcases List.any_eq_true.mp h with ⟨kv, hm, hb⟩
      have : hasKeyB a k = true :=
        List.any_eq_true.mpr ⟨kv, (List.mem_filter.mp hm).1, hb⟩
      rw [ha] at this
      cases this
  | true =>
    cases hc : hasKeyB c k with
    | true =>
      simp only [Bool.not_true, Bool.and_false]
      cases h : hasKeyB (a.filter (fun kv => !(hasKeyB c kv.1))) k with
      | false => rfl
      | true =>
        rcases List.any_eq_true.mp h with ⟨kv, hm, hb⟩
        have hkeq : kv.1 = k := by simpa using hb
        have := (List.mem_filter.mp hm).2
        rw [hkeq, hc] at this
        cases this
    | false =>
      simp only [Bool.not_false, Bool.and_true]
      rcases List.any_eq_true.mp ha with ⟨kv, hm, hb⟩
      have hkeq : kv.1 = k := by simpa using hb
      refine List.any_eq_true.mpr ⟨kv, List.mem_filter.mpr ⟨hm, ?_⟩, hb⟩
      rw [hkeq, hc]
      rfl

theorem hasKeyB_blobUnion (a b : Blob) (k : String) :
    hasKeyB (blobUnion a b) k = (hasKeyB a k || hasKeyB b k) := by
  rw [blobUnion, hasKeyB_append, hasKeyB_filterNot]
  cases hasKeyB a k <;> cases hasKeyB b k <;> rfl

theorem blobUnion_self (a : Blob) : blobUnion a a = a := by
  rw [blobUnion]
  have h : a.filter (fun kv => !(hasKeyB a kv.1)) = [] := by
    rw [List.filter_eq_nil_iff]
    intro kv hkv
    simp [hasKeyB_of_mem a kv hkv]
  rw [h, List.nil_append]

theorem blobUnion_assoc (a b c : Blob) :
    blobUnion (blobUnion a b) c = blobUnion a (blobUnion b c) := by
  simp only [blobUnion, List.filter_append, List.append_assoc]
  congr 1
  rw [List.filter_filter]
  apply List.filter_congr
  intro kv _
  rw [show List.filter (fun kv => !hasKeyB c kv.1) b ++ c = blobUnion b c from rfl,
    hasKeyB_blobUnion]
  cases hasKeyB b kv.1 <;> cases hasKeyB c kv.1 <;> rfl

theorem blobLookup_cons (kv : String × Jval) (b : Blob) (k : String) :
    blobLookup (kv :: b) k = if kv.1 == k then some kv.2 else blobLookup b k := by
  rw [blobLookup]
  cases hkv : (kv.1 == k) with
  | false =>
    have hfind : List.find? (fun kv => kv.1 == k) (kv :: b)
        = List.find? (fun kv => kv.1 == k) b :=
      List.find?_cons_of_neg (p := fun kv => kv.1 == k) b (by simp [hkv])
    rw [hfind]
    simp [hkv, blobLookup]
  | true =>
    have hfind : List.find? (fun kv => kv.1 == k) (kv :: b) = some kv :=
      List.find?_cons_of_pos (p := fun kv => kv.1 == k) b hkv
    rw [hfind]
    simp [hkv]

theorem blobLookup_isSome (b : Blob) (k : String) :
    (blobLookup b k).isSome = hasKeyB b k := by
  induction b with
  | nil => rfl
  | cons kv b ih =>
    rw [blobLookup_cons]
    cases hkv : (kv.1 == k) with
    | false => simpa [hkv, hasKeyB] using ih
    | true => simp [hkv, hasKeyB]

theorem blobLookup_eq_none_of_hasKeyB_false (b : Blob) (k : String)
    (h : hasKeyB b k = false) : blobLookup b k = none := by
  cases hb : blobLookup b k with
  | none => rfl
  | some v =>
    have := blobLookup_isSome b k
    rw [hb, h] at this
    cases this

/-! ## Optional-scalar merge helpers: COALESCE and GREATEST -/

/-- `COALESCE(x, y)`: the first non-null argument. -/
def ocoal (x y : Option α) : Option α :=
  match x with
  | some v => some v
  | none => y

theorem ocoal_assoc (x y z : Option α) :
    ocoal (ocoal x y) z = ocoal x (ocoal y z) := by
  cases x <;> cases y <;> rfl

theorem ocoal_self (x : Option α) : ocoal x x = x := by
  cases x <;> rfl

@[simp] theorem ocoal_none_left (y : Option α) : ocoal none y = y := rfl

@[simp] theorem ocoal_some_left (v : α) (y : Option α) :
    ocoal (some v) y = some v := rfl

@[simp] theorem ocoal_none_right (x : Option α) : ocoal x none = x := by
  cases x <;> rfl

/-- Key lookup through a blob union: the incoming (right) blob wins on a key
it contains; otherwise the stored (left) value survives. -/
theorem blobLookup_blobUnion (a b : Blob) (k : String) :
    blobLookup (blobUnion a b) k = ocoal (blobLookup b k) (blobLookup a k) := by
  induction a with
  | nil =>
    rw [show blobUnion [] b = b from rfl, blobLookup]
    simp [ocoal_none_right, blobLookup]
  | cons kv a ih =>
    cases hkb : hasKeyB b kv.1 with
    | true =>
      have hstep : blobUnion (kv :: a) b = blobUnion a b := by
        rw [blobUnion, blobUnion, List.filter_cons_of_neg (by simp [hkb])]
      rw [hstep, ih, blobLookup_cons]
      cases hkv : (kv.1 == k) with
      | false => rfl
      | true =>
        have hkeq : kv.1 = k := by simpa using hkv
        rw [hkeq] at hkb
        have : (blobLookup b k).isSome = true := by rw [blobLookup_isSome, hkb]
        rcases Option.isSome_iff_exists.mp this with ⟨v, hv⟩
        rw [hv]
        rfl
    | false =>
      have hstep : blobUnion (kv :: a) b = kv :: blobUnion a b := by
        rw [blobUnion, blobUnion, List.filter_cons_of_pos (by simp [hkb])]
        rfl
      rw [hstep, blobLookup_cons, blobLookup_cons]
      cases hkv : (kv.1 == k) with
      | false => simpa [hkv] using ih
      | true =>
        have hkeq : kv.1 = k := by simpa using hkv
        rw [hkeq] at hkb
        rw [blobLookup_eq_none_of_hasKeyB_false b k hkb]
        rfl

/-- Postgres `GREATEST(x, y)` on nullable integers: NULL arguments are
ignored; NULL only results when both sides are NULL. -/
def optMax (x y : Option Int) : Option Int :=
  match x, y with
  | none, y => y
  | some a, none => some a
  | some a, some b => some (max a b)

theorem optMax_assoc (x y z : Option Int) :
    optMax (optMax x y) z = optMax x (optMax y z) := by
  cases x <;> cases y <;> cases z <;> simp [optMax, max_assoc]

theorem optMax_self (x : Option Int) : optMax x x = x := by
  cases x <;> simp [optMax]

/-! ## Data model (src/models.rs, src/ui.rs) -/

structure SteamProfile where
  account_id : Int
  personaname : String
  profileurl : String
  avatar : String
  avatarmedium : String
  avatarfull : String
  countrycode : Option String
  realname : Option String
  last_updated : Option String

structure MMRHistory where
  account_id : Int
  match_id : Int
  start_time : Int
  player_score : Float
  rank : Int
  division : Int
  division_tier : Int

structure HeroStats where
  account_id : Int
  hero_id : Int
  matches_played : Option Int
  wins : Option Int
  last_played : Option Int
  time_played : Option Int
  ending_level : Option Float
  kills : Option Int
  deaths : Option Int
  assists : Option Int
  kills_per_min : Option Float
  deaths_per_min : Option Float
  assists_per_min : Option Float
  networth_per_min : Option Float
  last_hits_per_min : Option Float
  damage_per_min : Option Float
  damage_taken_per_min : Option Float
  obj_damage_per_min : Option Float
  accuracy : Option Float
  crit_shot_rate : Option Float

structure PlayerInMatch where
  account_id : Int
  hero_id : Option Int
  team : Option String
  party_id : Option Int
  lane : Option String
  is_victory : Option Bool
  kills : Option Int
  deaths : Option Int
  assists : Option Int
  networth : Option Int
  damage : Option Int
  damage_taken : Option Int
  obj_damage : Option Int
  last_hits : Option Int
  accuracy : Option Float
  crit_shot_rate : Option Float
  extra : Option Blob

structure MatchMeta where
  match_id : Int
  start_time : Option Int
  duration_s : Option Int
  winner_team : Option String
  average_badge : Option Int
  region : Option String
  patch_version : Option String
  info : Option Blob
  players : Option (List PlayerInMatch)

structure CombinedPayload where
  steamid64 : String
  account_id : Nat
  profile : SteamProfile
  latest_mmr : Option MMRHistory
  hero_stats : List HeroStats

/-! ## Numeric conversions (src/db.rs, src/steam.rs) -/

def i64Max : Int := 9223372036854775807

/-- Largest UNIX second chrono can represent as a `DateTime<Utc>`
(year 262142); `Utc.timestamp_opt` yields `None` above it and
`ts_from_epoch_secs` then falls back to epoch 0. -/
def chronoMaxTs : Int := 8210266876799

/-- `db::ts_from_epoch_secs`: clamp negatives to 0, out-of-range to epoch. -/
def ts_from_epoch_secs (secs : Int) : Int :=
  let s := if secs < 0 then 0 else secs
  if s ≤ chronoMaxTs then s else 0

/-- Rust `as i32` on an i64 value: two's-complement wrap-around. -/
def wrap32 (v : Int) : Int := (v + 2 ^ 31) % 2 ^ 32 - 2 ^ 31

/-- Rust `as u32` on an i64 value: the low 32 bits. -/
def wrapU32 (v : Int) : Int := v % 2 ^ 32

/-- `steam::account_id_to_steamid64`. -/
def account_id_to_steamid64 (account_id : Int) : String :=
  toString (76561197960265728 + account_id)

/-! ## Table rows and merge functions (read off the SQL in src/db.rs) -/

structure MatchRow where
  start_time : Option Int
  duration_s : Option Int
  winner_team : Option String
  average_badge : Option Int
  region : Option String
  patch_version : Option String
  info_json : Blob
deriving DecidableEq, Repr

/-- The row proposed by the VALUES clause of the `matches` insert. -/
def matchRowOf (m : MatchMeta) : MatchRow where
  start_time := m.start_time.map ts_from_epoch_secs
  duration_s := m.duration_s
  winner_team := m.winner_team
  average_badge := m.average_badge
  region := m.region
  patch_version := m.patch_version
  info_json := m.info.getD []

/-- `matches` ON CONFLICT DO UPDATE: scalars null-coalesce (incoming wins
only when non-null), `info_json` is a shallow union with the incoming blob
winning per key. -/
def mergeMatch (r e : MatchRow) : MatchRow where
  start_time := ocoal e.start_time r.start_time
  duration_s := ocoal e.duration_s r.duration_s
  winner_team := ocoal e.winner_team r.winner_team
  average_badge := ocoal e.average_badge r.average_badge
  region := ocoal e.region r.region
  patch_version := ocoal e.patch_version r.patch_version
  info_json := blobUnion r.info_json e.info_json

theorem mergeMatch_assoc (a b c : MatchRow) :
    mergeMatch (mergeMatch a b) c = mergeMatch a (mergeMatch b c) := by
  simp [mergeMatch, ocoal_assoc, blobUnion_assoc]

theorem mergeMatch_self (a : MatchRow) : mergeMatch a a = a := by
  simp [mergeMatch, ocoal_self, blobUnion_self]

structure MatchPlayerRow where
  hero_id : Option Int
  team : Option String
  party_id : Option Int
  lane : Option String
  is_victory : Option Bool
  kills : Option Int
  deaths : Option Int
  assists : Option Int
  networth : Option Int
  damage : Option Int
  damage_taken : Option Int
  obj_damage : Option Int
  last_hits : Option Int
  accuracy : Option Float
  crit_shot_rate : Option Float
  extra_json : Blob

def matchPlayerRowOf (p : PlayerInMatch) : MatchPlayerRow where
  hero_id := p.hero_id
  team := p.team
  party_id := p.party_id
  lane := p.lane
  is_victory := p.is_victory
  kills := p.kills
  deaths := p.deaths
  assists := p.assists
  networth := p.networth
  damage := p.damage
  damage_taken := p.damage_taken
  obj_damage := p.obj_damage
  last_hits := p.last_hits
  accuracy := p.accuracy
  crit_shot_rate := p.crit_shot_rate
  extra_json := p.extra.getD []

/-- `match_players` ON CONFLICT DO UPDATE: full scalar overwrite (latest
fetch wins), blob shallow union. -/
def mergeMatchPlayer (r e : MatchPlayerRow) : MatchPlayerRow :=
  { e with extra_json := blobUnion r.extra_json e.extra_json }

theorem mergeMatchPlayer_assoc (a b c : MatchPlayerRow) :
    mergeMatchPlayer (mergeMatchPlayer a b) c
      = mergeMatchPlayer a (mergeMatchPlayer b c) := by
  simp [mergeMatchPlayer, blobUnion_assoc]

theorem mergeMatchPlayer_self (a : MatchPlayerRow) : mergeMatchPlayer a a = a := by
  simp [mergeMatchPlayer, blobUnion_self]

structure PlayerRow where
  steamid64 : String
  personaname : Option String
  profileurl : Option String
  avatar : Option String
  avatarmedium : Option String
  avatarfull : Option String
  countrycode : Option String
  realname : Option String
  profile_extra : Blob
  profile_updated_at : Option Int
deriving DecidableEq, Repr

/-- The stub row inserted by `ensure_player_stub`. The INSERT names only
`account_id` and `steamid64`; the migrations live outside src/, so
(Modelled from the spec: a stub is "a minimally populated entity row
created only to satisfy a foreign-key reference") the remaining columns
default to NULL / empty here. -/
def stubPlayerRow (account_id : Int) : PlayerRow where
  steamid64 := account_id_to_steamid64 (wrapU32 account_id)
  personaname := none
  profileurl := none
  avatar := none
  avatarmedium := none
  avatarfull := none
  countrycode := none
  realname := none
  profile_extra := []
  profile_updated_at := none

/-- The row proposed by `upsert_player` (always binds `'{}'` as the blob). -/
def profileRowOf (steamid64 : String) (p : SteamProfile) : PlayerRow where
  steamid64 := steamid64
  personaname := some p.personaname
  profileurl := some p.profileurl
  avatar := some p.avatar
  avatarmedium := some p.avatarmedium
  avatarfull := some p.avatarfull
  countrycode := p.countrycode
  realname := p.realname
  profile_extra := []
  profile_updated_at := (p.last_updated.bind String.toInt?).map ts_from_epoch_secs

/-- `players` ON CONFLICT DO UPDATE in `upsert_player`: scalar overwrite,
blob union, `GREATEST` on the profile timestamp. -/
def mergePlayer (r e : PlayerRow) : PlayerRow :=
  { e with
    profile_extra := blobUnion r.profile_extra e.profile_extra
    profile_updated_at := optMax r.profile_updated_at e.profile_updated_at }

theorem mergePlayer_assoc (a b c : PlayerRow) :
    mergePlayer (mergePlayer a b) c = mergePlayer a (mergePlayer b c) := by
  simp [mergePlayer, blobUnion_assoc, optMax_assoc]

theorem mergePlayer_self (a : PlayerRow) : mergePlayer a a = a := by
  simp [mergePlayer, blobUnion_self, optMax_self]

structure LatestMmrRow where
  match_id : Int
  start_time : Int
  player_score : Float
  rank : Int
  division : Int
  division_tier : Int
  extra : Blob

def latestMmrRowOf (m : MMRHistory) : LatestMmrRow where
  match_id := m.match_id
  start_time := ts_from_epoch_secs m.start_time
  player_score := m.player_score
  rank := m.rank
  division := m.division
  division_tier := m.division_tier
  extra := []

/-- `latest_mmr` ON CONFLICT DO UPDATE: full scalar overwrite, blob union. -/
def mergeLatestMmr (r e : LatestMmrRow) : LatestMmrRow :=
  { e with extra := blobUnion r.extra e.extra }

theorem mergeLatestMmr_assoc (a b c : LatestMmrRow) :
    mergeLatestMmr (mergeLatestMmr a b) c = mergeLatestMmr a (mergeLatestMmr b c) := by
  simp [mergeLatestMmr, blobUnion_assoc]

theorem mergeLatestMmr_self (a : LatestMmrRow) : mergeLatestMmr a a = a := by
  simp [mergeLatestMmr, blobUnion_self]

/-- `mmr_history` row content (the key columns account_id and start_time
live in the table key). -/
structure MmrHistoryRow where
  match_id : Int
  player_score : Float
  rank : Int
  division : Int
  division_tier : Int
  extra : Blob

def mmrHistoryRowOf (m : MMRHistory) : MmrHistoryRow where
  match_id := m.match_id
  player_score := m.player_score
  rank := m.rank
  division := m.division
  division_tier := m.division_tier
  extra := []

structure HeroCurRow where
  matches_played : Option Int
  wins : Option Int
  last_played : Option Int
  time_played : Option Int
  ending_level : Option Float
  kills : Option Int
  deaths : Option Int
  assists : Option Int
  kills_per_min : Option Float
  deaths_per_min : Option Float
  assists_per_min : Option Float
  networth_per_min : Option Float
  last_hits_per_min : Option Float
  damage_per_min : Option Float
  damage_taken_per_min : Option Float
  obj_damage_per_min : Option Float
  accuracy : Option Float
  crit_shot_rate : Option Float
  extra : Blob

/-- The row proposed by `upsert_hero_current` (`.map(|v| v as i32)` casts
modelled by `wrap32`; always binds `'{}'` as the blob). -/
def heroCurRowOf (h : HeroStats) : HeroCurRow where
  matches_played := h.matches_played.map wrap32
  wins := h.wins.map wrap32
  last_played := h.last_played.map ts_from_epoch_secs
  time_played := h.time_played.map wrap32
  ending_level := h.ending_level
  kills := h.kills.map wrap32
  deaths := h.deaths.map wrap32
  assists := h.assists.map wrap32
  kills_per_min := h.kills_per_min
  deaths_per_min := h.deaths_per_min
  assists_per_min := h.assists_per_min
  networth_per_min := h.networth_per_min
  last_hits_per_min := h.last_hits_per_min
  damage_per_min := h.damage_per_min
  damage_taken_per_min := h.damage_taken_per_min
  obj_damage_per_min := h.obj_damage_per_min
  accuracy := h.accuracy
  crit_shot_rate := h.crit_shot_rate
  extra := []

/-- `hero_stats_current` ON CONFLICT DO UPDATE: full scalar overwrite
(including nullable columns), blob union. -/
def mergeHeroCur (r e : HeroCurRow) : HeroCurRow :=
  { e with extra := blobUnion r.extra e.extra }

theorem mergeHeroCur_assoc (a b c : HeroCurRow) :
    mergeHeroCur (mergeHeroCur a b) c = mergeHeroCur a (mergeHeroCur b c) := by
  simp [mergeHeroCur, blobUnion_assoc]

theorem mergeHeroCur_self (a : HeroCurRow) : mergeHeroCur a a = a := by
  simp [mergeHeroCur, blobUnion_self]

theorem keepFirst_assoc {ρ : Type v} (a b c : ρ) :
    keepFirst (keepFirst a b) c = keepFirst a (keepFirst b c) := rfl

theorem keepFirst_self {ρ : Type v} (a : ρ) : keepFirst a a = a := rfl

/-! ## The durable store: one `Table` per SQL table -/

structure Store where
  matches_table : Table Int MatchRow
  match_players : Table (Int × Int) MatchPlayerRow
  players : Table Int PlayerRow
  latest_mmr : Table Int LatestMmrRow
  mmr_history : Table (Int × Int) MmrHistoryRow
  hero_stats_current : Table (Int × Int) HeroCurRow
  hero_stats_history : Table (Int × Int × Int) HeroStats

def Store.empty : Store where
  matches_table := Table.empty
  match_players := Table.empty
  players := Table.empty
  latest_mmr := Table.empty
  mmr_history := Table.empty
  hero_stats_current := Table.empty
  hero_stats_history := Table.empty

/-- Row count of every table, in a fixed order. -/
def Store.rowCounts (s : Store) : List Nat :=
  [s.matches_table.rowCount, s.match_players.rowCount, s.players.rowCount,
   s.latest_mmr.rowCount, s.mmr_history.rowCount,
   s.hero_stats_current.rowCount, s.hero_stats_history.rowCount]

/-! ## Ingestion (src/db.rs) -/

structure IngestResult where
  heroes_upserted : Nat
  hero_history_added : Nat
  mmr_updated : Bool
deriving DecidableEq, Repr

structure MatchesIngestResult where
  matches_upserted : Nat
  match_players_upserted : Nat
  players_upserted : Nat
deriving DecidableEq, Repr

/-- `db::upsert_player`. -/
def upsert_player (s : Store) (account_id : Int) (steamid64 : String)
    (p : SteamProfile) : Store :=
  { s with players := s.players.upsert mergePlayer account_id (profileRowOf steamid64 p) }

/-- `db::ensure_player_stub` (`ON CONFLICT DO NOTHING`). -/
def ensure_player_stub (s : Store) (account_id : Int) : Store :=
  { s with players := s.players.upsert keepFirst account_id (stubPlayerRow account_id) }

/-- `db::upsert_match_player`, keyed by `(match_id, account_id)`. -/
def upsert_match_player (s : Store) (match_id : Int) (p : PlayerInMatch) : Store :=
  { s with match_players :=
      s.match_players.upsert mergeMatchPlayer (match_id, p.account_id) (matchPlayerRowOf p) }

/-- `db::upsert_latest_mmr`, keyed by `account_id`. -/
def upsert_latest_mmr (s : Store) (account_id : Int) (m : MMRHistory) : Store :=
  { s with latest_mmr := s.latest_mmr.upsert mergeLatestMmr account_id (latestMmrRowOf m) }

/-- `db::insert_mmr_history`, keyed by `(account_id, start_time)`,
`ON CONFLICT DO NOTHING`. -/
def insert_mmr_history (s : Store) (account_id : Int) (m : MMRHistory) : Store :=
  { s with mmr_history :=
      (s.mmr_history.upsert keepFirst (account_id, ts_from_epoch_secs m.start_time)
        (mmrHistoryRowOf m)) }

/-- `db::upsert_hero_current`, keyed by `(account_id, hero_id)`. -/
def upsert_hero_current (s : Store) (account_id : Int) (h : HeroStats) : Store :=
  { s with hero_stats_current :=
      s.hero_stats_current.upsert mergeHeroCur (account_id, h.hero_id) (heroCurRowOf h) }

/-- `db::insert_hero_snapshot`: only inserts when `last_played` is present;
keyed by `(account_id, hero_id, last_played)`, `ON CONFLICT DO NOTHING`;
the stored snapshot is the serialized `HeroStats` payload. -/
def insert_hero_snapshot (s : Store) (account_id : Int) (h : HeroStats) : Store :=
  match h.last_played with
  | some lp =>
      { s with hero_stats_history :=
          (s.hero_stats_history.upsert keepFirst
            (account_id, h.hero_id, ts_from_epoch_secs lp) h) }
  | none => s

/-- The `matches` upsert inside `ingest_matches_batch`. -/
def upsert_match (s : Store) (m : MatchMeta) : Store :=
  { s with matches_table := s.matches_table.upsert mergeMatch m.match_id (matchRowOf m) }

/-- One iteration of the nested player loop of `ingest_matches_batch`. -/
def ingest_player_row_step (match_id : Int) (so : Store × MatchesIngestResult)
    (p : PlayerInMatch) : Store × MatchesIngestResult :=
  let s := ensure_player_stub so.1 p.account_id
  let s := upsert_match_player s match_id p
  (s, { so.2 with
        players_upserted := so.2.players_upserted + 1
        match_players_upserted := so.2.match_players_upserted + 1 })

/-- One iteration of the outer loop of `ingest_matches_batch`. -/
def ingest_matches_step (so : Store × MatchesIngestResult) (m : MatchMeta) :
    Store × MatchesIngestResult :=
  let s := upsert_match so.1 m
  let out := { so.2 with matches_upserted := so.2.matches_upserted + 1 }
  (m.players.getD []).foldl (ingest_player_row_step m.match_id) (s, out)

/-- `db::ingest_matches_batch` (the transactional success path; the
transactional failure path is modelled separately below). -/
def ingest_matches_batch (s : Store) (metas : List MatchMeta) :
    Store × MatchesIngestResult :=
  metas.foldl ingest_matches_step (s, ⟨0, 0, 0⟩)

/-- One iteration of the hero loop of `ingest_player`. -/
def ingest_hero_step (account_id : Int) (sr : Store × IngestResult) (h : HeroStats) :
    Store × IngestResult :=
  let s := upsert_hero_current sr.1 account_id h
  let res := { sr.2 with heroes_upserted := sr.2.heroes_upserted + 1 }
  if h.last_played.isSome then
    (insert_hero_snapshot s account_id h,
     { res with hero_history_added := res.hero_history_added + 1 })
  else (s, res)

/-- `db::ingest_player` (transactional success path). -/
def ingest_player (s : Store) (payload : CombinedPayload) : Store × IngestResult :=
  let acc : Int := (payload.account_id : Int)
  let s := upsert_player s acc payload.steamid64 payload.profile
  let init : Store × IngestResult :=
    match payload.latest_mmr with
    | some m =>
        (insert_mmr_history (upsert_latest_mmr s acc m) acc m, ⟨0, 0, true⟩)
    | none => (s, ⟨0, 0, false⟩)
  payload.hero_stats.foldl (ingest_hero_step acc) init

/-! ## Decomposition of the ingest loops into per-table upsert batches -/

def playersOf (m : MatchMeta) : List PlayerInMatch := m.players.getD []

def matchOpsOf (metas : List MatchMeta) : List (Int × MatchRow) :=
  metas.map (fun m => (m.match_id, matchRowOf m))

def stubOpsOf (metas : List MatchMeta) : List (Int × PlayerRow) :=
  metas.flatMap (fun m => (playersOf m).map
    (fun p => (p.account_id, stubPlayerRow p.account_id)))

def mpOpsOf (metas : List MatchMeta) : List ((Int × Int) × MatchPlayerRow) :=
  metas.flatMap (fun m => (playersOf m).map
    (fun p => ((m.match_id, p.account_id), matchPlayerRowOf p)))

theorem matchOpsOf_cons (m : MatchMeta) (metas : List MatchMeta) :
    matchOpsOf (m :: metas) = (m.match_id, matchRowOf m) :: matchOpsOf metas := rfl

theorem stubOpsOf_cons (m : MatchMeta) (metas : List MatchMeta) :
    stubOpsOf (m :: metas) =
      ((playersOf m).map (fun p => (p.account_id, stubPlayerRow p.account_id)))
        ++ stubOpsOf metas := rfl

theorem mpOpsOf_cons (m : MatchMeta) (metas : List MatchMeta) :
    mpOpsOf (m :: metas) =
      ((playersOf m).map (fun p => ((m.match_id, p.account_id), matchPlayerRowOf p)))
        ++ mpOpsOf metas := rfl

theorem inner_fold_fst (match_id : Int) (ps : List PlayerInMatch)
    (s : Store) (out : MatchesIngestResult) :
    (ps.foldl (ingest_player_row_step match_id) (s, out)).1 =
      { s with
        players := Table.applyOps keepFirst
          (ps.map (fun p => (p.account_id, stubPlayerRow p.account_id))) s.players
        match_players := Table.applyOps mergeMatchPlayer
          (ps.map (fun p => ((match_id, p.account_id), matchPlayerRowOf p)))
          s.match_players } := by
  induction ps generalizing s out with
  | nil => rfl
  | cons p ps ih =>
    rw [List.foldl_cons, List.map_cons, List.map_cons,
      Table.applyOps_cons, Table.applyOps_cons]
    exact ih _ _

theorem inner_fold_snd (match_id : Int) (ps : List PlayerInMatch)
    (s : Store) (out : MatchesIngestResult) :
    (ps.foldl (ingest_player_row_step match_id) (s, out)).2 =
      { out with
        players_upserted := out.players_upserted + ps.length
        match_players_upserted := out.match_players_upserted + ps.length } := by
  induction ps generalizing s out with
  | nil => rfl
  | cons p ps ih =>
    rw [List.foldl_cons, ih]
    simp [ingest_player_row_step, Nat.add_comm, Nat.add_assoc, Nat.add_left_comm]

theorem ingest_matches_fold_fst (metas : List MatchMeta)
    (s : Store) (out : MatchesIngestResult) :
    (metas.foldl ingest_matches_step (s, out)).1 =
      { s with
        matches_table := Table.applyOps mergeMatch (matchOpsOf metas) s.matches_table
        players := Table.applyOps keepFirst (stubOpsOf metas) s.players
        match_players := Table.applyOps mergeMatchPlayer (mpOpsOf metas) s.match_players } := by
  induction metas generalizing s out with
  | nil => rfl
  | cons m metas ih =>
    rw [List.foldl_cons]
    rw [show metas.foldl ingest_matches_step (ingest_matches_step (s, out) m)
          = metas.foldl ingest_matches_step
              (((playersOf m).foldl (ingest_player_row_step m.match_id)
                 (upsert_match s m, { out with matches_upserted := out.matches_upserted + 1 })).1,
               ((playersOf m).foldl (ingest_player_row_step m.match_id)
                 (upsert_match s m, { out with matches_upserted := out.matches_upserted + 1 })).2)
      from rfl]
    rw [ih, inner_fold_fst]
    rw [matchOpsOf_cons, Table.applyOps_cons, stubOpsOf_cons,
      Table.applyOps_append, mpOpsOf_cons, Table.applyOps_append]
    rfl

/-- Number of nested sub-records in a chunk. -/
def subRecordCount (metas : List MatchMeta) : Nat :=
  (metas.map (fun m => (playersOf m).length)).sum

theorem subRecordCount_cons (m : MatchMeta) (metas : List MatchMeta) :
    subRecordCount (m :: metas) = (playersOf m).length + subRecordCount metas := by
  simp [subRecordCount]

theorem ingest_matches_fold_snd (metas : List MatchMeta)
    (s : Store) (out : MatchesIngestResult) :
    (metas.foldl ingest_matches_step (s, out)).2 =
      { out with
        matches_upserted := out.matches_upserted + metas.length
        match_players_upserted := out.match_players_upserted + subRecordCount metas
        players_upserted := out.players_upserted + subRecordCount metas } := by
  induction metas generalizing s out with
  | nil => simp [subRecordCount]
  | cons m metas ih =>
    rw [List.foldl_cons]
    rw [show ingest_matches_step (s, out) m
          = (((playersOf m).foldl (ingest_player_row_step m.match_id)
               (upsert_match s m, { out with matches_upserted := out.matches_upserted + 1 })).1,
             ((playersOf m).foldl (ingest_player_row_step m.match_id)
               (upsert_match s m, { out with matches_upserted := out.matches_upserted + 1 })).2)
      from rfl]
    rw [ih, inner_fold_snd]
    simp only [subRecordCount_cons, List.length_cons, MatchesIngestResult.mk.injEq]
    refine ⟨?_, ?_, ?_⟩ <;> omega

/-- The store produced by `ingest_matches_batch`, as three per-table
upsert batches. -/
theorem ingest_matches_batch_store (s : Store) (metas : List MatchMeta) :
    (ingest_matches_batch s metas).1 =
      { s with
        matches_table := Table.applyOps mergeMatch (matchOpsOf metas) s.matches_table
        players := Table.applyOps keepFirst (stubOpsOf metas) s.players
        match_players := Table.applyOps mergeMatchPlayer (mpOpsOf metas) s.match_players } :=
  ingest_matches_fold_fst metas s ⟨0, 0, 0⟩

theorem ingest_matches_batch_counts (s : Store) (metas : List MatchMeta) :
    (ingest_matches_batch s metas).2 =
      ⟨metas.length, subRecordCount metas, subRecordCount metas⟩ := by
  rw [ingest_matches_batch, ingest_matches_fold_snd]
  simp

def heroOpsOf (acc : Int) (hs : List HeroStats) : List ((Int × Int) × HeroCurRow) :=
  hs.map (fun h => ((acc, h.hero_id), heroCurRowOf h))

def heroHistOpsOf (acc : Int) (hs : List HeroStats) :
    List ((Int × Int × Int) × HeroStats) :=
  hs.filterMap (fun h =>
    h.last_played.map (fun lp => ((acc, h.hero_id, ts_from_epoch_secs lp), h)))

def latestOpsOf (acc : Int) : Option MMRHistory → List (Int × LatestMmrRow)
  | some m => [(acc, latestMmrRowOf m)]
  | none => []

def mmrHistOpsOf (acc : Int) : Option MMRHistory → List ((Int × Int) × MmrHistoryRow)
  | some m => [((acc, ts_from_epoch_secs m.start_time), mmrHistoryRowOf m)]
  | none => []

theorem hero_fold_fst (acc : Int) (hs : List HeroStats) (s : Store)
    (res : IngestResult) :
    (hs.foldl (ingest_hero_step acc) (s, res)).1 =
      { s with
        hero_stats_current := Table.applyOps mergeHeroCur (heroOpsOf acc hs)
          s.hero_stats_current
        hero_stats_history := Table.applyOps keepFirst (heroHistOpsOf acc hs)
          s.hero_stats_history } := by
  induction hs generalizing s res with
  | nil => rfl
  | cons h hs ih =>
    rw [List.foldl_cons]
    cases hlp : h.last_played with
    | none =>
      rw [show ingest_hero_step acc (s, res) h
            = (upsert_hero_current s acc h,
               { res with heroes_upserted := res.heroes_upserted + 1 })
        from by simp [ingest_hero_step, hlp]]
      rw [ih]
      rw [show heroOpsOf acc (h :: hs)
            = ((acc, h.hero_id), heroCurRowOf h) :: heroOpsOf acc hs from rfl,
        Table.applyOps_cons,
        show heroHistOpsOf acc (h :: hs) = heroHistOpsOf acc hs
          from by simp [heroHistOpsOf, List.filterMap_cons, hlp]]
      rfl
    | some lp =>
      rw [show ingest_hero_step acc (s, res) h
            = (insert_hero_snapshot (upsert_hero_current s acc h) acc h,
               { res with
                  heroes_upserted := res.heroes_upserted + 1
                  hero_history_added := res.hero_history_added + 1 })
        from by simp [ingest_hero_step, hlp]]
      rw [ih]
      rw [show heroOpsOf acc (h :: hs)
            = ((acc, h.hero_id), heroCurRowOf h) :: heroOpsOf acc hs from rfl,
        Table.applyOps_cons,
        show heroHistOpsOf acc (h :: hs)
            = ((acc, h.hero_id, ts_from_epoch_secs lp), h) :: heroHistOpsOf acc hs
          from by simp [heroHistOpsOf, List.filterMap_cons, hlp],
        Table.applyOps_cons]
      rw [show insert_hero_snapshot (upsert_hero_current s acc h) acc h
            = { upsert_hero_current s acc h with
                hero_stats_history :=
                  ((upsert_hero_current s acc h).hero_stats_history.upsert keepFirst
                    (acc, h.hero_id, ts_from_epoch_secs lp) h) }
        from by simp [insert_hero_snapshot, hlp]]
      rfl

/-- The store produced by `ingest_player`, as five per-table upsert
batches. -/
theorem ingest_player_store (s : Store) (payload : CombinedPayload) :
    (ingest_player s payload).1 =
      { s with
        players := Table.applyOps mergePlayer
          [((payload.account_id : Int),
            profileRowOf payload.steamid64 payload.profile)] s.players
        latest_mmr := Table.applyOps mergeLatestMmr
          (latestOpsOf (payload.account_id : Int) payload.latest_mmr) s.latest_mmr
        mmr_history := Table.applyOps keepFirst
          (mmrHistOpsOf (payload.account_id : Int) payload.latest_mmr) s.mmr_history
        hero_stats_current := Table.applyOps mergeHeroCur
          (heroOpsOf (payload.account_id : Int) payload.hero_stats)
          s.hero_stats_current
        hero_stats_history := Table.applyOps keepFirst
          (heroHistOpsOf (payload.account_id : Int) payload.hero_stats)
          s.hero_stats_history } := by
  rw [ingest_player]
  cases hm : payload.latest_mmr with
  | none =>
    rw [show (match (none : Option MMRHistory) with
          | some m =>
            (insert_mmr_history
                (upsert_latest_mmr
                  (upsert_player s (payload.account_id : Int) payload.steamid64 payload.profile)
                  (payload.account_id : Int) m)
                (payload.account_id : Int) m,
             (⟨0, 0, true⟩ : IngestResult))
          | none =>
            (upsert_player s (payload.account_id : Int) payload.steamid64 payload.profile,
             (⟨0, 0, false⟩ : IngestResult)))
        = (upsert_player s (payload.account_id : Int) payload.steamid64 payload.profile,
           (⟨0, 0, false⟩ : IngestResult)) from rfl]
    rw [hero_fold_fst]
    rfl
  | some m =>
    rw [show (match (some m : Option MMRHistory) with
          | some m =>
            (insert_mmr_history
                (upsert_latest_mmr
                  (upsert_player s (payload.account_id : Int) payload.steamid64 payload.profile)
                  (payload.account_id : Int) m)
                (payload.account_id : Int) m,
             (⟨0, 0, true⟩ : IngestResult))
          | none =>
            (upsert_player s (payload.account_id : Int) payload.steamid64 payload.profile,
             (⟨0, 0, false⟩ : IngestResult)))
        = (insert_mmr_history
              (upsert_latest_mmr
                (upsert_player s (payload.account_id : Int) payload.steamid64 payload.profile)
                (payload.account_id : Int) m)
              (payload.account_id : Int) m,
           (⟨0, 0, true⟩ : IngestResult)) from rfl]
    rw [hero_fold_fst]
    rfl

/-! ## Claim C1: ingestion is idempotent -/

/-- C1: Ingestion is idempotent: for every payload, running the ingestion
(`ingest_matches_batch` or `ingest_player`) a second time with input
identical to the first run changes no stored row — every table's row count
changes by zero on the second run (the stores are equal, hence all seven
row counts are equal), and every stored scalar and blob value after the
second run equals its value after the first run (again because the stores
are equal). -/
theorem claim_C1_ingestion_idempotent (s : Store) (metas : List MatchMeta)
    (payload : CombinedPayload) :
    (ingest_matches_batch (ingest_matches_batch s metas).1 metas).1
        = (ingest_matches_batch s metas).1
    ∧ (ingest_player (ingest_player s payload).1 payload).1
        = (ingest_player s payload).1
    ∧ Store.rowCounts (ingest_matches_batch (ingest_matches_batch s metas).1 metas).1
        = Store.rowCounts (ingest_matches_batch s metas).1
    ∧ Store.rowCounts (ingest_player (ingest_player s payload).1 payload).1
        = Store.rowCounts (ingest_player s payload).1 := by
  have hmb : (ingest_matches_batch (ingest_matches_batch s metas).1 metas).1
      = (ingest_matches_batch s metas).1 := by
    rw [ingest_matches_batch_store s metas, ingest_matches_batch_store]
    show ({ s with
        matches_table := Table.applyOps mergeMatch (matchOpsOf metas)
          (Table.applyOps mergeMatch (matchOpsOf metas) s.matches_table)
        players := Table.applyOps keepFirst (stubOpsOf metas)
          (Table.applyOps keepFirst (stubOpsOf metas) s.players)
        match_players := Table.applyOps mergeMatchPlayer (mpOpsOf metas)
          (Table.applyOps mergeMatchPlayer (mpOpsOf metas) s.match_players) } : Store)
      = { s with
          matches_table := Table.applyOps mergeMatch (matchOpsOf metas) s.matches_table
          players := Table.applyOps keepFirst (stubOpsOf metas) s.players
          match_players := Table.applyOps mergeMatchPlayer (mpOpsOf metas) s.match_players }
    rw [Table.applyOps_applyOps mergeMatch mergeMatch_assoc mergeMatch_self,
      Table.applyOps_applyOps keepFirst keepFirst_assoc keepFirst_self,
      Table.applyOps_applyOps mergeMatchPlayer mergeMatchPlayer_assoc mergeMatchPlayer_self]
  have hpl : (ingest_player (ingest_player s payload).1 payload).1
      = (ingest_player s payload).1 := by
    rw [ingest_player_store s payload, ingest_player_store]
    show ({ s with
        players := Table.applyOps mergePlayer
          [((payload.account_id : Int), profileRowOf payload.steamid64 payload.profile)]
          (Table.applyOps mergePlayer
            [((payload.account_id : Int), profileRowOf payload.steamid64 payload.profile)]
            s.players)
        latest_mmr := Table.applyOps mergeLatestMmr
          (latestOpsOf (payload.account_id : Int) payload.latest_mmr)
          (Table.applyOps mergeLatestMmr
            (latestOpsOf (payload.account_id : Int) payload.latest_mmr) s.latest_mmr)
        mmr_history := Table.applyOps keepFirst
          (mmrHistOpsOf (payload.account_id : Int) payload.latest_mmr)
          (Table.applyOps keepFirst
            (mmrHistOpsOf (payload.account_id : Int) payload.latest_mmr) s.mmr_history)
        hero_stats_current := Table.applyOps mergeHeroCur
          (heroOpsOf (payload.account_id : Int) payload.hero_stats)
          (Table.applyOps mergeHeroCur
            (heroOpsOf (payload.account_id : Int) payload.hero_stats)
            s.hero_stats_current)
        hero_stats_history := Table.applyOps keepFirst
          (heroHistOpsOf (payload.account_id : Int) payload.hero_stats)
          (Table.applyOps keepFirst
            (heroHistOpsOf (payload.account_id : Int) payload.hero_stats)
            s.hero_stats_history) } : Store)
      = { s with
          players := Table.applyOps mergePlayer
            [((payload.account_id : Int), profileRowOf payload.steamid64 payload.profile)]
            s.players
          latest_mmr := Table.applyOps mergeLatestMmr
            (latestOpsOf (payload.account_id : Int) payload.latest_mmr) s.latest_mmr
          mmr_history := Table.applyOps keepFirst
            (mmrHistOpsOf (payload.account_id : Int) payload.latest_mmr) s.mmr_history
          hero_stats_current := Table.applyOps mergeHeroCur
            (heroOpsOf (payload.account_id : Int) payload.hero_stats)
            s.hero_stats_current
          hero_stats_history := Table.applyOps keepFirst
            (heroHistOpsOf (payload.account_id : Int) payload.hero_stats)
            s.hero_stats_history }
    rw [Table.applyOps_applyOps mergePlayer mergePlayer_assoc mergePlayer_self,
      Table.applyOps_applyOps mergeLatestMmr mergeLatestMmr_assoc mergeLatestMmr_self,
      Table.applyOps_applyOps keepFirst keepFirst_assoc keepFirst_self,
      Table.applyOps_applyOps mergeHeroCur mergeHeroCur_assoc mergeHeroCur_self,
      Table.applyOps_applyOps keepFirst keepFirst_assoc keepFirst_self]
  exact ⟨hmb, hpl, congrArg Store.rowCounts hmb, congrArg Store.rowCounts hpl⟩

/-! ## Claim C2: merge monotonicity (corrected) -/

/-- A hero-stats payload whose only non-null stat is `matches_played = 10`. -/
def heroTen : HeroStats where
  account_id := 1
  hero_id := 2
  matches_played := some 10
  wins := none
  last_played := none
  time_played := none
  ending_level := none
  kills := none
  deaths := none
  assists := none
  kills_per_min := none
  deaths_per_min := none
  assists_per_min := none
  networth_per_min := none
  last_hits_per_min := none
  damage_per_min := none
  damage_taken_per_min := none
  obj_damage_per_min := none
  accuracy := none
  crit_shot_rate := none

/-- The same hero with `matches_played` absent. -/
def heroGone : HeroStats := { heroTen with matches_played := none }

/-- C2 counterexample: the claim is false for the current table
`hero_stats_current` — its `DO UPDATE SET` clause overwrites every scalar
with the incoming value, so upserting a payload whose `matches_played` is
absent replaces the previously stored non-null `matches_played = 10` with
null. -/
theorem claim_C2_counterexample :
    (((upsert_hero_current Store.empty 1 heroTen).hero_stats_current.val
        (1, 2)).map HeroCurRow.matches_played = some (some 10))
    ∧ (((upsert_hero_current (upsert_hero_current Store.empty 1 heroTen) 1
          heroGone).hero_stats_current.val
        (1, 2)).map HeroCurRow.matches_played = some none) := by
  constructor
  · rfl
  · rfl

/-- C2 amended: the record table `matches` null-coalesces each scalar, so an
absent incoming value never erases a stored one; the current tables
(`hero_stats_current`, `latest_mmr`) instead fully overwrite scalars with
the incoming row (which is how `hero_stats_current` can store a null over a
previous non-null, while `latest_mmr`'s incoming scalars are non-nullable);
and every jsonb merge is the shallow union `blobUnion`: the merged blob has
exactly the keys of both sides, the incoming value winning on an
overlapping key — never a full blob replacement. -/
theorem claim_C2_amended (r e : MatchRow) (rh eh : HeroCurRow)
    (rl el : LatestMmrRow) (rp ep : MatchPlayerRow) (a b : Blob) (k : String)
    (h : e.start_time = none) :
    (mergeMatch r e).start_time = r.start_time
    ∧ (e.duration_s = none → (mergeMatch r e).duration_s = r.duration_s)
    ∧ (e.winner_team = none → (mergeMatch r e).winner_team = r.winner_team)
    ∧ (e.average_badge = none → (mergeMatch r e).average_badge = r.average_badge)
    ∧ (e.region = none → (mergeMatch r e).region = r.region)
    ∧ (e.patch_version = none → (mergeMatch r e).patch_version = r.patch_version)
    ∧ (mergeHeroCur rh eh).matches_played = eh.matches_played
    ∧ (mergeHeroCur rh eh).wins = eh.wins
    ∧ (mergeHeroCur rh eh).last_played = eh.last_played
    ∧ (mergeLatestMmr rl el).rank = el.rank
    ∧ (mergeLatestMmr rl el).player_score = el.player_score
    ∧ (mergeMatch r e).info_json = blobUnion r.info_json e.info_json
    ∧ (mergeHeroCur rh eh).extra = blobUnion rh.extra eh.extra
    ∧ (mergeLatestMmr rl el).extra = blobUnion rl.extra el.extra
    ∧ (mergeMatchPlayer rp ep).extra_json = blobUnion rp.extra_json ep.extra_json
    ∧ hasKeyB (blobUnion a b) k = (hasKeyB a k || hasKeyB b k)
    ∧ blobLookup (blobUnion a b) k = ocoal (blobLookup b k) (blobLookup a k) := by
  refine ⟨?_, ?_, ?_, ?_, ?_, ?_, rfl, rfl, rfl, rfl, rfl, rfl, rfl, rfl, rfl,
    hasKeyB_blobUnion a b k, blobLookup_blobUnion a b k⟩
  · simp [mergeMatch, h]
  all_goals intro hf
  all_goals simp [mergeMatch, hf]

/-- A match payload carrying only `duration_s` (start time absent). -/
def metaAbsentStart : MatchMeta where
  match_id := 1
  start_time := none
  duration_s := some 60
  winner_team := none
  average_badge := none
  region := none
  patch_version := none
  info := none
  players := none

/-- A match payload carrying only `start_time` and an info blob. -/
def metaWithStart : MatchMeta where
  match_id := 1
  start_time := some 5
  duration_s := none
  winner_team := none
  average_badge := none
  region := none
  patch_version := none
  info := some [("k", Jval.jnum 1)]
  players := none

def mmrFixtureA : MMRHistory := ⟨1, 100, 50, 7.5, 40, 4, 2⟩

def mmrFixtureB : MMRHistory := ⟨1, 200, 50, 9.5, 41, 4, 3⟩

def pimFixture : PlayerInMatch where
  account_id := 1
  hero_id := none
  team := none
  party_id := none
  lane := none
  is_victory := none
  kills := none
  deaths := none
  assists := none
  networth := none
  damage := none
  damage_taken := none
  obj_damage := none
  last_hits := none
  accuracy := none
  crit_shot_rate := none
  extra := none

theorem claim_C2_amended_witness :
    ((matchRowOf metaAbsentStart).start_time = none)
    ∧ (mergeMatch (matchRowOf metaWithStart) (matchRowOf metaAbsentStart)).start_time
      = (matchRowOf metaWithStart).start_time := by
  refine ⟨rfl, ?_⟩
  exact (claim_C2_amended (matchRowOf metaWithStart) (matchRowOf metaAbsentStart)
    (heroCurRowOf heroTen) (heroCurRowOf heroGone)
    (latestMmrRowOf mmrFixtureA) (latestMmrRowOf mmrFixtureB)
    (matchPlayerRowOf pimFixture) (matchPlayerRowOf pimFixture)
    [("a", Jval.jnum 1)] [("a", Jval.jnum 2)] "a" rfl).1

/-! ## Claim C3: history tables are strictly append-only -/

/-- C3: inserting into `mmr_history` (key `(account_id, start_time)`) or
`hero_stats_history` (key `(account_id, hero_id, last_played)`) with a key
that is already present is a silent no-op: the model of
`ON CONFLICT DO NOTHING` is a total function (no error), the duplicate
insert leaves the store exactly as it was (so the existing row is never
modified), and a key inserted into a table that did not contain it has
exactly one stored row afterwards. -/
theorem claim_C3_history_append_only (s : Store) (acc : Int) (m m' : MMRHistory)
    (h h' : HeroStats) (lp lp' : Int)
    (hkey : ts_from_epoch_secs m'.start_time = ts_from_epoch_secs m.start_time)
    (hfresh : s.mmr_history.val (acc, ts_from_epoch_secs m.start_time) = none)
    (hcount : s.mmr_history.keys.count (acc, ts_from_epoch_secs m.start_time) = 0)
    (hlp : h.last_played = some lp) (hlp' : h'.last_played = some lp')
    (hhero : h'.hero_id = h.hero_id)
    (hts : ts_from_epoch_secs lp' = ts_from_epoch_secs lp)
    (hfresh2 : s.hero_stats_history.val (acc, h.hero_id, ts_from_epoch_secs lp) = none)
    (hcount2 : s.hero_stats_history.keys.count (acc, h.hero_id, ts_from_epoch_secs lp) = 0) :
    insert_mmr_history (insert_mmr_history s acc m) acc m'
        = insert_mmr_history s acc m
    ∧ (insert_mmr_history s acc m).mmr_history.val
        (acc, ts_from_epoch_secs m.start_time) = some (mmrHistoryRowOf m)
    ∧ (insert_mmr_history s acc m).mmr_history.keys.count
        (acc, ts_from_epoch_secs m.start_time) = 1
    ∧ insert_hero_snapshot (insert_hero_snapshot s acc h) acc h'
        = insert_hero_snapshot s acc h
    ∧ (insert_hero_snapshot s acc h).hero_stats_history.val
        (acc, h.hero_id, ts_from_epoch_secs lp) = some h
    ∧ (insert_hero_snapshot s acc h).hero_stats_history.keys.count
        (acc, h.hero_id, ts_from_epoch_secs lp) = 1 := by
  have hv1 : (insert_mmr_history s acc m).mmr_history.val
      (acc, ts_from_epoch_secs m.start_time) = some (mmrHistoryRowOf m) := by
    rw [show (insert_mmr_history s acc m).mmr_history
          = s.mmr_history.upsert keepFirst (acc, ts_from_epoch_secs m.start_time)
              (mmrHistoryRowOf m) from rfl]
    rw [Table.val_upsert, if_pos rfl, hfresh]
    rfl
  have hc1 : (insert_mmr_history s acc m).mmr_history.keys.count
      (acc, ts_from_epoch_secs m.start_time) = 1 := by
    rw [show (insert_mmr_history s acc m).mmr_history
          = s.mmr_history.upsert keepFirst (acc, ts_from_epoch_secs m.start_time)
              (mmrHistoryRowOf m) from rfl]
    rw [show (s.mmr_history.upsert keepFirst (acc, ts_from_epoch_secs m.start_time)
          (mmrHistoryRowOf m)).keys
        = if (s.mmr_history.val (acc, ts_from_epoch_secs m.start_time)).isSome
          then s.mmr_history.keys
          else s.mmr_history.keys ++ [(acc, ts_from_epoch_secs m.start_time)] from rfl]
    rw [hfresh]
    simp [List.count_append, hcount]
  have hno1 : insert_mmr_history (insert_mmr_history s acc m) acc m'
      = insert_mmr_history s acc m := by
    rw [show insert_mmr_history (insert_mmr_history s acc m) acc m'
          = { insert_mmr_history s acc m with mmr_history :=
              ((insert_mmr_history s acc m).mmr_history.upsert keepFirst
                (acc, ts_from_epoch_secs m'.start_time) (mmrHistoryRowOf m')) } from rfl]
    rw [hkey]
    rw [Table.upsert_keepFirst_of_present _ _ _ (by rw [hv1]; rfl)]
  have hsnap : insert_hero_snapshot s acc h
      = { s with hero_stats_history :=
          (s.hero_stats_history.upsert keepFirst
            (acc, h.hero_id, ts_from_epoch_secs lp) h) } := by
    rw [insert_hero_snapshot, hlp]
  have hv2 : (insert_hero_snapshot s acc h).hero_stats_history.val
      (acc, h.hero_id, ts_from_epoch_secs lp) = some h := by
    rw [hsnap]
    rw [show ({ s with hero_stats_history :=
          (s.hero_stats_history.upsert keepFirst
            (acc, h.hero_id, ts_from_epoch_secs lp) h) } : Store).hero_stats_history
        = s.hero_stats_history.upsert keepFirst
            (acc, h.hero_id, ts_from_epoch_secs lp) h from rfl]
    rw [Table.val_upsert, if_pos rfl, hfresh2]
    rfl
  have hc2 : (insert_hero_snapshot s acc h).hero_stats_history.keys.count
      (acc, h.hero_id, ts_from_epoch_secs lp) = 1 := by
    rw [hsnap]
    rw [show ({ s with hero_stats_history :=
          (s.hero_stats_history.upsert keepFirst
            (acc, h.hero_id, ts_from_epoch_secs lp) h) } : Store).hero_stats_history.keys
        = if (s.hero_stats_history.val (acc, h.hero_id, ts_from_epoch_secs lp)).isSome
          then s.hero_stats_history.keys
          else s.hero_stats_history.keys ++ [(acc, h.hero_id, ts_from_epoch_secs lp)]
      from rfl]
    rw [hfresh2]
    simp [List.count_append, hcount2]
  have hno2 : insert_hero_snapshot (insert_hero_snapshot s acc h) acc h'
      = insert_hero_snapshot s acc h := by
    rw [show insert_hero_snapshot (insert_hero_snapshot s acc h) acc h'
          = { insert_hero_snapshot s acc h with hero_stats_history :=
              ((insert_hero_snapshot s acc h).hero_stats_history.upsert keepFirst
                (acc, h'.hero_id, ts_from_epoch_secs lp') h') } from by
        rw [insert_hero_snapshot, hlp']]
    rw [hhero, hts]
    rw [Table.upsert_keepFirst_of_present _ _ _ (by rw [hv2]; rfl)]
  exact ⟨hno1, hv1, hc1, hno2, hv2, hc2⟩

def heroSnapA : HeroStats := { heroTen with last_played := some 77 }

def heroSnapB : HeroStats := { heroGone with last_played := some 77, wins := some 3 }

theorem claim_C3_history_append_only_witness :
    ts_from_epoch_secs mmrFixtureB.start_time = ts_from_epoch_secs mmrFixtureA.start_time
    ∧ insert_mmr_history (insert_mmr_history Store.empty 1 mmrFixtureA) 1 mmrFixtureB
        = insert_mmr_history Store.empty 1 mmrFixtureA :=
  ⟨by decide, (claim_C3_history_append_only Store.empty 1 mmrFixtureA mmrFixtureB
      heroSnapA heroSnapB 77 77 (by decide) rfl (by decide) rfl rfl (by decide)
      (by decide) rfl (by decide)).1⟩

/-! ## Retry loop (src/deadlock.rs `get_json`)

The HTTP layer is an oracle `resp : Nat → Resp α` giving the outcome of
each attempt. A response carries its status, the raw `Retry-After` header
(when present and readable as a string), the body text, and the result of
JSON-decoding the body. `parse_retry_after` takes the HTTP-date branch via
the oracle `dateF` (the duration until an HTTP date depends on the wall
clock, which has no pure embedding); the seconds branch is modelled
directly. Durations are milliseconds. -/

structure HttpResp (α : Type u) where
  status : Nat
  retry_after : Option String
  body : String
  decoded : Except String α

inductive Resp (α : Type u) where
  | net : String → Resp α
  | http : HttpResp α → Resp α

inductive DLErr where
  | http : Nat → String → DLErr
  | rateLimited : String → DLErr
  | other : String → DLErr
deriving DecidableEq, Repr

inductive SleepEv where
  | hinted : Nat → SleepEv
  | backoff : Nat → SleepEv
deriving DecidableEq, Repr

/-- reqwest `StatusCode::is_success`: 2xx. -/
def isSuccessStatus (s : Nat) : Bool := decide (200 ≤ s) && decide (s < 300)

/-- `Duration::MAX` in milliseconds (`saturating_mul` saturates there). -/
def durationMaxMs : Nat := (2 ^ 64 - 1) * 1000 + 999

/-- `delay.saturating_mul(2)`. -/
def satMul2 (d : Nat) : Nat := min (d * 2) durationMaxMs

def parseDigitsAux : List Char → Nat → Option Nat
  | [], acc => some acc
  | c :: cs, acc =>
    if c.isDigit then parseDigitsAux cs (acc * 10 + (c.toNat - 48)) else none

/-- Rust `s.parse::<u64>()`: an optional leading `+`, at least one digit,
bounded by `u64::MAX`. -/
def parse_u64 (s : String) : Option Nat :=
  let cs :=
    match s.data with
    | '+' :: rest => rest
    | cs => cs
  match cs with
  | [] => none
  | _ =>
    (parseDigitsAux cs 0).bind
      (fun n => if n ≤ 2 ^ 64 - 1 then some n else none)

/-- `deadlock::parse_retry_after`: a seconds count (`u64` parse) becomes
that many seconds; otherwise the HTTP-date branch is consulted through
`dateF`. -/
def parse_retry_after (dateF : String → Option Nat) (s : String) : Option Nat :=
  match parse_u64 s with
  | some n => some (n * 1000)
  | none => dateF s

structure RunOut (α : Type u) where
  result : Except DLErr α
  sleeps : List SleepEv
  attempts : Nat

/-- The body of `get_json`'s `for attempt in 0..4` loop; `fuel` is the
number of loop iterations left, so the loop starts at fuel 4. -/
def get_json_go (dateF : String → Option Nat) (resp : Nat → Resp α) :
    Nat → Nat → Nat → Option DLErr → List SleepEv → RunOut α
  | 0, attempt, _delay, lastErr, sleeps =>
      ⟨.error (lastErr.getD (.other "HTTP failed")), sleeps, attempt⟩
  | fuel + 1, attempt, delay, lastErr, sleeps =>
      match resp attempt with
      | .net msg =>
          if attempt < 3 then
            get_json_go dateF resp fuel (attempt + 1) (satMul2 delay)
              (some (.other msg)) (sleeps ++ [.backoff delay])
          else
            get_json_go dateF resp fuel (attempt + 1) delay
              (some (.other msg)) sleeps
      | .http r =>
          if r.status = 429 then
            match r.retry_after.bind (parse_retry_after dateF) with
            | some w =>
                get_json_go dateF resp fuel (attempt + 1) delay
                  (some (.rateLimited r.body)) (sleeps ++ [.hinted w])
            | none =>
                if attempt < 3 then
                  get_json_go dateF resp fuel (attempt + 1) (satMul2 delay)
                    (some (.rateLimited r.body)) (sleeps ++ [.backoff delay])
                else
                  get_json_go dateF resp fuel (attempt + 1) delay
                    (some (.rateLimited r.body)) sleeps
          else if isSuccessStatus r.status then
            match r.decoded with
            | .ok v => ⟨.ok v, sleeps, attempt + 1⟩
            | .error e => ⟨.error (.other e), sleeps, attempt + 1⟩
          else ⟨.error (.http r.status r.body), sleeps, attempt + 1⟩

/-- `DeadlockClient::get_json`: 4 attempts, initial backoff 400ms. -/
def get_json (dateF : String → Option Nat) (resp : Nat → Resp α) : RunOut α :=
  get_json_go dateF resp 4 0 400 none []

/-- A retryable failure that does not carry a usable wait hint: a
network-level error, or a 429 whose `Retry-After` yields no duration. -/
def isRetryableB (dateF : String → Option Nat) : Resp α → Bool
  | .net _ => true
  | .http r => decide (r.status = 429) && (r.retry_after.bind (parse_retry_after dateF)).isNone

/-- The error `get_json` records for a retryable failure. -/
def errOf : Resp α → DLErr
  | .net msg => .other msg
  | .http r => .rateLimited r.body

theorem get_json_go_attempts_le (dateF : String → Option Nat) (resp : Nat → Resp α)
    (fuel attempt delay : Nat) (lastErr : Option DLErr) (sleeps : List SleepEv) :
    (get_json_go dateF resp fuel attempt delay lastErr sleeps).attempts
      ≤ attempt + fuel := by
  induction fuel generalizing attempt delay lastErr sleeps with
  | zero => exact Nat.le_refl _
  | succ fuel ih =>
    rw [get_json_go]
    have harith : attempt + 1 + fuel = attempt + (fuel + 1) := by omega
    cases resp attempt with
    | net msg =>
      by_cases hlt : attempt < 3
      · simpa [hlt, harith] using ih (attempt + 1) (satMul2 delay)
          (some (.other msg)) (sleeps ++ [.backoff delay])
      · simpa [hlt, harith] using ih (attempt + 1) delay (some (.other msg)) sleeps
    | http r =>
      by_cases h429 : r.status = 429
      · cases hw : r.retry_after.bind (parse_retry_after dateF) with
        | some w =>
          simpa [h429, hw, harith] using ih (attempt + 1) delay
            (some (.rateLimited r.body)) (sleeps ++ [.hinted w])
        | none =>
          by_cases hlt : attempt < 3
          · simpa [h429, hw, hlt, harith] using ih (attempt + 1) (satMul2 delay)
              (some (.rateLimited r.body)) (sleeps ++ [.backoff delay])
          · simpa [h429, hw, hlt, harith] using ih (attempt + 1) delay
              (some (.rateLimited r.body)) sleeps
      · by_cases hs : isSuccessStatus r.status
        · cases hd : r.decoded <;> simp [h429, hs, hd] <;> omega
        · simp [h429, hs] <;> omega

theorem get_json_go_retry_step (dateF : String → Option Nat) (resp : Nat → Resp α)
    (fuel attempt delay : Nat) (lastErr : Option DLErr) (sleeps : List SleepEv)
    (hr : isRetryableB dateF (resp attempt) = true) (hlt : attempt < 3) :
    get_json_go dateF resp (fuel + 1) attempt delay lastErr sleeps
      = get_json_go dateF resp fuel (attempt + 1) (satMul2 delay)
          (some (errOf (resp attempt))) (sleeps ++ [.backoff delay]) := by
  rw [get_json_go]
  cases hresp : resp attempt with
  | net msg => simp [hlt, errOf, hresp]
  | http r =>
    rw [hresp, isRetryableB] at hr
    simp only [Bool.and_eq_true, decide_eq_true_eq,
      Option.isNone_iff_eq_none] at hr
    simp [hr.1, hr.2, hlt, errOf, hresp]

theorem get_json_go_retry_last (dateF : String → Option Nat) (resp : Nat → Resp α)
    (fuel delay : Nat) (lastErr : Option DLErr) (sleeps : List SleepEv)
    (hr : isRetryableB dateF (resp 3) = true) :
    get_json_go dateF resp (fuel + 1) 3 delay lastErr sleeps
      = get_json_go dateF resp fuel 4 delay (some (errOf (resp 3))) sleeps := by
  rw [get_json_go]
  cases hresp : resp 3 with
  | net msg => simp [errOf, hresp]
  | http r =>
    rw [hresp, isRetryableB] at hr
    simp only [Bool.and_eq_true, decide_eq_true_eq,
      Option.isNone_iff_eq_none] at hr
    simp [hr.1, hr.2, errOf, hresp]

theorem get_json_go_hint_step (dateF : String → Option Nat) (resp : Nat → Resp α)
    (fuel attempt delay : Nat) (lastErr : Option DLErr) (sleeps : List SleepEv)
    (r : HttpResp α) (w : Nat)
    (hresp : resp attempt = .http r) (h429 : r.status = 429)
    (hhint : r.retry_after.bind (parse_retry_after dateF) = some w) :
    get_json_go dateF resp (fuel + 1) attempt delay lastErr sleeps
      = get_json_go dateF resp fuel (attempt + 1) delay
          (some (.rateLimited r.body)) (sleeps ++ [.hinted w]) := by
  rw [get_json_go]
  simp [hresp, h429, hhint]

theorem get_json_go_sleeps_grow (dateF : String → Option Nat) (resp : Nat → Resp α)
    (fuel attempt delay : Nat) (lastErr : Option DLErr) (sleeps : List SleepEv) :
    ∃ tail, (get_json_go dateF resp fuel attempt delay lastErr sleeps).sleeps
      = sleeps ++ tail := by
  induction fuel generalizing attempt delay lastErr sleeps with
  | zero => exact ⟨[], by simp [get_json_go]⟩
  | succ fuel ih =>
    rw [get_json_go]
    cases resp attempt with
    | net msg =>
      by_cases hlt : attempt < 3
      · rcases ih (attempt + 1) (satMul2 delay) (some (.other msg))
          (sleeps ++ [.backoff delay]) with ⟨tail, htail⟩
        exact ⟨[SleepEv.backoff delay] ++ tail, by simp [hlt, htail]⟩
      · rcases ih (attempt + 1) delay (some (.other msg)) sleeps with ⟨tail, htail⟩
        exact ⟨tail, by simp [hlt, htail]⟩
    | http r =>
      by_cases h429 : r.status = 429
      · cases hw : r.retry_after.bind (parse_retry_after dateF) with
        | some w =>
          rcases ih (attempt + 1) delay (some (.rateLimited r.body))
            (sleeps ++ [.hinted w]) with ⟨tail, htail⟩
          exact ⟨[SleepEv.hinted w] ++ tail, by simp [h429, hw, htail]⟩
        | none =>
          by_cases hlt : attempt < 3
          · rcases ih (attempt + 1) (satMul2 delay) (some (.rateLimited r.body))
              (sleeps ++ [.backoff delay]) with ⟨tail, htail⟩
            exact ⟨[SleepEv.backoff delay] ++ tail, by simp [h429, hw, hlt, htail]⟩
          · rcases ih (attempt + 1) delay (some (.rateLimited r.body)) sleeps
              with ⟨tail, htail⟩
            exact ⟨tail, by simp [h429, hw, hlt, htail]⟩
      · by_cases hs : isSuccessStatus r.status
        · cases hd : r.decoded <;> exact ⟨[], by simp [h429, hs, hd]⟩
        · exact ⟨[], by simp [h429, hs]⟩

/-! ## Claim C4: attempt budget, shared exponential backoff, last error -/

/-- C4: the retry loop makes at most 4 attempts for every oracle; and when
all four attempts are retryable failures (network errors or hint-less
429s, in any mix — both kinds count against the same budget), exactly 4
attempts are made, the sleeps are the exponential backoff schedule
starting at 400ms and doubling after each backoff sleep (no sleep follows
the final attempt), and the returned error is the one recorded for the
last attempt. -/
theorem claim_C4_retry_budget_backoff_last_error (dateF : String → Option Nat)
    (resp : Nat → Resp α)
    (H : ∀ i, i < 4 → isRetryableB dateF (resp i) = true) :
    (∀ g : Nat → Resp α, (get_json dateF g).attempts ≤ 4)
    ∧ (get_json dateF resp).attempts = 4
    ∧ (get_json dateF resp).sleeps
        = [.backoff 400, .backoff 800, .backoff 1600]
    ∧ (get_json dateF resp).result = .error (errOf (resp 3)) := by
  have hbound : ∀ g : Nat → Resp α, (get_json dateF g).attempts ≤ 4 := fun g =>
    get_json_go_attempts_le dateF g 4 0 400 none []
  have hrun : get_json dateF resp
      = ⟨.error (errOf (resp 3)),
         [.backoff 400, .backoff 800, .backoff 1600], 4⟩ := by
    rw [get_json]
    rw [get_json_go_retry_step dateF resp 3 0 400 none [] (H 0 (by omega)) (by omega)]
    rw [get_json_go_retry_step dateF resp 2 1 (satMul2 400) _ _ (H 1 (by omega)) (by omega)]
    rw [get_json_go_retry_step dateF resp 1 2 (satMul2 (satMul2 400)) _ _ (H 2 (by omega)) (by omega)]
    rw [get_json_go_retry_last dateF resp 0 (satMul2 (satMul2 (satMul2 400))) _ _ (H 3 (by omega))]
    rw [show satMul2 400 = 800 from by decide]
    rw [show satMul2 800 = 1600 from by decide]
    rfl
  rw [hrun]
  exact ⟨hbound, rfl, rfl, rfl⟩

def dateNone : String → Option Nat := fun _ => none

/-- A mixed oracle: network error first, then hint-less 429s. -/
def respMixed : Nat → Resp Nat := fun i =>
  if i = 0 then .net "connection refused"
  else .http ⟨429, none, "rate limited", .error "no body"⟩

theorem claim_C4_retry_budget_backoff_last_error_witness :
    (∀ i, i < 4 → isRetryableB dateNone (respMixed i) = true)
    ∧ (get_json dateNone respMixed).attempts = 4
    ∧ (get_json dateNone respMixed).sleeps
        = [.backoff 400, .backoff 800, .backoff 1600]
    ∧ (get_json dateNone respMixed).result
        = .error (.rateLimited "rate limited") :=
  ⟨by decide,
   (claim_C4_retry_budget_backoff_last_error dateNone respMixed (by decide)).2.1,
   (claim_C4_retry_budget_backoff_last_error dateNone respMixed (by decide)).2.2.1,
   (claim_C4_retry_budget_backoff_last_error dateNone respMixed (by decide)).2.2.2⟩

/-! ## Claim C5: hinted waits are exact and leave the backoff undoubled -/

/-- C5: when a 429 response carries a wait hint (`Retry-After` as a
seconds count, giving `n * 1000` milliseconds, or an HTTP date resolved by
`dateF`), the client sleeps exactly the hinted duration before the next
attempt, and the hinted wait does not advance the exponential schedule: a
hint-less retryable failure on the following attempt still sleeps the
undoubled 400ms initial backoff. -/
theorem claim_C5_hinted_wait_exact (dateF : String → Option Nat)
    (resp : Nat → Resp α) (r : HttpResp α) (w : Nat) (e : String)
    (h0 : resp 0 = .http r) (h429 : r.status = 429)
    (hhint : r.retry_after.bind (parse_retry_after dateF) = some w)
    (h1 : resp 1 = .net e) :
    (get_json dateF resp).sleeps.take 2 = [.hinted w, .backoff 400]
    ∧ (∀ g : Nat → Resp α, ∀ fuel attempt delay : Nat,
        ∀ lastErr : Option DLErr, ∀ sleeps : List SleepEv,
        g attempt = .http r →
          get_json_go dateF g (fuel + 1) attempt delay lastErr sleeps
            = get_json_go dateF g fuel (attempt + 1) delay
                (some (.rateLimited r.body)) (sleeps ++ [.hinted w]))
    ∧ parse_retry_after dateF "2" = some 2000 := by
  refine ⟨?_,
    fun g fuel attempt delay lastErr sleeps hg =>
      get_json_go_hint_step dateF g fuel attempt delay lastErr sleeps r w hg h429 hhint,
    rfl⟩
  rw [get_json]
  rw [get_json_go_hint_step dateF resp 3 0 400 none [] r w h0 h429 hhint]
  rw [show get_json_go dateF resp 3 1 400 (some (.rateLimited r.body))
        ([] ++ [SleepEv.hinted w])
      = get_json_go dateF resp 2 2 (satMul2 400) (some (errOf (resp 1)))
          (([] ++ [SleepEv.hinted w]) ++ [.backoff 400])
    from get_json_go_retry_step dateF resp 2 1 400 _ _ (by rw [h1]; rfl) (by omega)]
  rcases get_json_go_sleeps_grow dateF resp 2 2 (satMul2 400)
    (some (errOf (resp 1))) (([] ++ [SleepEv.hinted w]) ++ [.backoff 400])
    with ⟨tail, htail⟩
  rw [htail]
  simp

def respHinted : Nat → Resp Nat := fun i =>
  if i = 0 then .http ⟨429, some "2", "rate limited", .error "no body"⟩
  else .net "connection reset"

theorem claim_C5_hinted_wait_exact_witness :
    ((⟨429, some "2", "rate limited", .error "no body"⟩ : HttpResp Nat).retry_after.bind
        (parse_retry_after dateNone) = some 2000)
    ∧ (get_json dateNone respHinted).sleeps.take 2
        = [.hinted 2000, .backoff 400] :=
  ⟨by decide,
   (claim_C5_hinted_wait_exact dateNone respHinted
      ⟨429, some "2", "rate limited", .error "no body"⟩ 2000 "connection reset"
      rfl rfl (by decide) rfl).1⟩

/-! ## Candidate resolution (src/main.rs, `matches sync`)

`candidate_ids` starts from the explicit `--id` list, is extended with the
match ids of the selected participant's MMR history when a participant key
was given (a fetch failure only prints a warning), falls back to a
sequential window when still empty, and is then sorted (`sort_unstable`),
deduplicated (`dedup` on the sorted list) and truncated to `limit`.
`sort_unstable` on `i64` is modelled by insertion sort: on integers every
correct sort returns the same list. -/

def insertSorted (x : Int) : List Int → List Int
  | [] => [x]
  | y :: t => if x ≤ y then x :: y :: t else y :: insertSorted x t

def sortInts (l : List Int) : List Int := l.foldr insertSorted []

/-- Rust `Vec::dedup`: removes consecutive duplicates. -/
def dedupAdj : List Int → List Int
  | [] => []
  | [a] => [a]
  | a :: b :: t => if a = b then dedupAdj (b :: t) else a :: dedupAdj (b :: t)

/-- The `while candidate_ids.len() < limit && next <= until_cap` loop,
starting from an empty candidate list. -/
def seqWindow (next untilCap : Int) : Nat → List Int
  | 0 => []
  | r + 1 => if next ≤ untilCap then next :: seqWindow (next + 1) untilCap r else []

/-- `SELECT COALESCE(MAX(match_id), 0) FROM matches`. -/
def maxMatchId (t : Table Int MatchRow) : Int :=
  match t.keys with
  | [] => 0
  | k :: ks => ks.foldl max k

structure ResolveOut where
  warned : Bool
  candidate_ids : List Int
deriving DecidableEq, Repr

/-- Candidate resolution for `matches sync`. `mmr` is `none` when no
participant key was given, otherwise the outcome of `dl.get_mmr` for the
selected account (a failure is only warned about, never propagated). -/
def resolve_candidate_ids (ids : List Int)
    (mmr : Option (Except DLErr (List MMRHistory)))
    (since_id until_id : Option Int) (limit : Nat)
    (t : Table Int MatchRow) : ResolveOut :=
  let c1 : List Int := ids
  let cw : List Int × Bool :=
    match mmr with
    | none => (c1, false)
    | some (.ok l) => (c1 ++ l.map (fun m => m.match_id), false)
    | some (.error _) => (c1, true)
  let c3 :=
    if cw.1.isEmpty then
      let start_from :=
        match since_id with
        | some s => s
        | none => maxMatchId t
      seqWindow (start_from + 1) (until_id.getD i64Max) limit
    else cw.1
  let c4 := dedupAdj (sortInts c3)
  let c5 := if c4.length > limit then c4.take limit else c4
  ⟨cw.2, c5⟩

theorem seqWindow_head_eq (next untilCap : Int) (r : Nat) (y : Int)
    (h : (seqWindow next untilCap r).head? = some y) : y = next := by
  cases r with
  | zero => cases h
  | succ r =>
    rw [seqWindow] at h
    by_cases hle : next ≤ untilCap
    · rw [if_pos hle] at h
      cases h
      rfl
    · rw [if_neg hle] at h
      cases h

theorem seqWindow_chain (next untilCap : Int) (r : Nat) :
    List.Chain' (· < ·) (seqWindow next untilCap r) := by
  induction r generalizing next with
  | zero => exact List.chain'_nil
  | succ r ih =>
    rw [seqWindow]
    by_cases hle : next ≤ untilCap
    · rw [if_pos hle]
      refine List.chain'_cons'.mpr ⟨?_, ih (next + 1)⟩
      intro y hy
      rw [seqWindow_head_eq (next + 1) untilCap r y hy]
      omega
    · rw [if_neg hle]
      exact List.chain'_nil

theorem seqWindow_length_le (next untilCap : Int) (r : Nat) :
    (seqWindow next untilCap r).length ≤ r := by
  induction r generalizing next with
  | zero => exact Nat.le_refl _
  | succ r ih =>
    rw [seqWindow]
    by_cases hle : next ≤ untilCap
    · rw [if_pos hle]
      simpa using ih (next + 1)
    · rw [if_neg hle]
      simp

theorem insertSorted_of_head_le (x : Int) (l : List Int)
    (h : ∀ y, l.head? = some y → x ≤ y) : insertSorted x l = x :: l := by
  cases l with
  | nil => rfl
  | cons y t =>
    rw [insertSorted, if_pos (h y rfl)]

theorem sortInts_of_chain_le (l : List Int) (h : List.Chain' (· ≤ ·) l) :
    sortInts l = l := by
  induction l with
  | nil => rfl
  | cons a t ih =>
    rw [show sortInts (a :: t) = insertSorted a (sortInts t) from rfl]
    rw [ih (List.Chain'.tail h)]
    refine insertSorted_of_head_le a t (fun y hy => ?_)
    cases t with
    | nil => cases hy
    | cons b t2 =>
      cases hy
      exact List.chain'_cons.mp h |>.1

theorem dedupAdj_of_chain_lt (l : List Int) (h : List.Chain' (· < ·) l) :
    dedupAdj l = l := by
  induction l with
  | nil => rfl
  | cons a t ih =>
    cases t with
    | nil => rfl
    | cons b t2 =>
      have hab : a < b := (List.chain'_cons.mp h).1
      rw [dedupAdj, if_neg (by omega)]
      rw [ih (List.Chain'.tail h)]

/-! ## Claim C6: the fallback window (corrected) -/

/-- Modelled from the spec (the wording of claim C6): the sequential
fallback window "starts at `since` if given, else at one past the maximum
record id currently stored". Compared against the code's window below. -/
def specFallbackWindow (since_id : Option Int) (maxStored untilCap : Int)
    (limit : Nat) : List Int :=
  seqWindow (match since_id with | some s => s | none => maxStored + 1)
    untilCap limit

/-- C6 counterexample: with `--since-id 1000` and limit 5 the code produces
`{1001,...,1005}` — the window starts one past `since`, not at `since` as
the claim states (the spec's window would be `{1000,...,1004}`). -/
theorem claim_C6_counterexample :
    (resolve_candidate_ids [] none (some 1000) none 5 Table.empty).candidate_ids
      = [1001, 1002, 1003, 1004, 1005]
    ∧ specFallbackWindow (some 1000) (maxMatchId Table.empty) i64Max 5
      = [1000, 1001, 1002, 1003, 1004]
    ∧ ¬ ((resolve_candidate_ids [] none (some 1000) none 5 Table.empty).candidate_ids
          = specFallbackWindow (some 1000) (maxMatchId Table.empty) i64Max 5) := by
  refine ⟨by decide, by decide, by decide⟩

/-- A matches table whose maximum stored id is 1000. -/
def tableMax1000 : Table Int MatchRow :=
  Table.empty.upsert mergeMatch 1000 (matchRowOf metaAbsentStart)

/-- C6 amended: with no explicit ids and no participant key, the resolver
produces the sequential window that starts ONE PAST `since` if given, else
one past the maximum stored record id, stepping by 1 until `limit`
candidates are collected or `until` is exceeded; the claim's concrete
example stands: with stored max id 1000 and limit 5 the candidates are
exactly `{1001,...,1005}`. -/
theorem claim_C6_amended_fallback_window (since_id until_id : Option Int)
    (limit : Nat) (t : Table Int MatchRow) :
    resolve_candidate_ids [] none since_id until_id limit t
      = ⟨false,
         seqWindow
           ((match since_id with | some s => s | none => maxMatchId t) + 1)
           (until_id.getD i64Max) limit⟩
    ∧ (resolve_candidate_ids [] none none none 5 tableMax1000).candidate_ids
      = [1001, 1002, 1003, 1004, 1005] := by
  constructor
  · cases since_id with
    | none =>
      have hchain := seqWindow_chain (maxMatchId t + 1) (until_id.getD i64Max) limit
      have hlen := seqWindow_length_le (maxMatchId t + 1) (until_id.getD i64Max) limit
      rw [resolve_candidate_ids.eq_def]
      simp only [List.isEmpty_nil, if_true]
      rw [sortInts_of_chain_le _ (hchain.imp (fun a b hab => le_of_lt hab)),
        dedupAdj_of_chain_lt _ hchain, if_neg (by omega)]
    | some s =>
      have hchain := seqWindow_chain (s + 1) (until_id.getD i64Max) limit
      have hlen := seqWindow_length_le (s + 1) (until_id.getD i64Max) limit
      rw [resolve_candidate_ids.eq_def]
      simp only [List.isEmpty_nil, if_true]
      rw [sortInts_of_chain_le _ (hchain.imp (fun a b hab => le_of_lt hab)),
        dedupAdj_of_chain_lt _ hchain, if_neg (by omega)]
  · decide

/-! ## Claim C10: an MMR-history fetch failure is not fatal -/

/-- C10: during candidate resolution, a failed MMR fetch for the selected
participant key is only warned about: the resolver still returns a value
(the model of the `Err` match arm is total — nothing is propagated), the
warning flag is set, and the candidates are exactly those produced with no
participant key at all (equivalently, with a fetch that returned no
entries): the participant-key selection silently contributes zero
candidates, and the remaining sources (explicit ids and the fallback
window) still apply. -/
theorem claim_C10_mmr_failure_warns_and_continues (ids : List Int) (e : DLErr)
    (since_id until_id : Option Int) (limit : Nat) (t : Table Int MatchRow) :
    (resolve_candidate_ids ids (some (.error e)) since_id until_id limit t).warned
      = true
    ∧ (resolve_candidate_ids ids (some (.error e)) since_id until_id limit t).candidate_ids
      = (resolve_candidate_ids ids none since_id until_id limit t).candidate_ids
    ∧ (resolve_candidate_ids ids (some (.error e)) since_id until_id limit t).candidate_ids
      = (resolve_candidate_ids ids (some (.ok [])) since_id until_id limit t).candidate_ids := by
  refine ⟨rfl, rfl, ?_⟩
  rw [resolve_candidate_ids.eq_def, resolve_candidate_ids.eq_def]
  simp

/-! ## Claim C7: the returned ingest counts (corrected) -/

def participantIdsOf (metas : List MatchMeta) : List Int :=
  metas.flatMap (fun m => (playersOf m).map (fun p => p.account_id))

/-- The number of distinct participant ids among a chunk's sub-records. -/
def distinctParticipantCount (metas : List MatchMeta) : Nat :=
  (participantIdsOf metas).dedup.length

/-- Two matches, both containing the same single participant. -/
def metaDupA : MatchMeta where
  match_id := 1
  start_time := none
  duration_s := none
  winner_team := none
  average_badge := none
  region := none
  patch_version := none
  info := none
  players := some [pimFixture]

def metaDupB : MatchMeta := { metaDupA with match_id := 2 }

/-- C7 counterexample: for a chunk of two matches that reference the same
participant, `players_upserted` is 2 (one increment per sub-record
occurrence) while the number of distinct participants referenced is 1 —
the returned count is not the distinct-participant count. -/
theorem claim_C7_counterexample :
    (ingest_matches_batch Store.empty [metaDupA, metaDupB]).2.players_upserted = 2
    ∧ distinctParticipantCount [metaDupA, metaDupB] = 1
    ∧ ¬ ((ingest_matches_batch Store.empty [metaDupA, metaDupB]).2.players_upserted
          = distinctParticipantCount [metaDupA, metaDupB]) := by
  refine ⟨rfl, by decide, ?_⟩
  intro h
  rw [show (ingest_matches_batch Store.empty [metaDupA, metaDupB]).2.players_upserted
        = 2 from rfl] at h
  rw [show distinctParticipantCount [metaDupA, metaDupB] = 1 from by decide] at h
  cases h

/-- C7 amended: `ingest_matches_batch` returns `matches_upserted` equal to
the number of records in the chunk, `match_players_upserted` equal to the
total number of nested sub-record occurrences, and `players_upserted`
equal to that same total number of occurrences (the counter is bumped once
per sub-record, so it is not the distinct-participant count). -/
theorem claim_C7_amended_ingest_counts (s : Store) (metas : List MatchMeta) :
    (ingest_matches_batch s metas).2
      = ⟨metas.length, subRecordCount metas, subRecordCount metas⟩
    ∧ (ingest_matches_batch s metas).2.players_upserted
      = (ingest_matches_batch s metas).2.match_players_upserted := by
  refine ⟨ingest_matches_batch_counts s metas, ?_⟩
  rw [ingest_matches_batch_counts s metas]

/-! ## Orchestration over chunks (src/main.rs, `matches sync` chunk loop) -/

def chunksOfAux (n : Nat) : Nat → List Int → List (List Int)
  | 0, _ => []
  | _, [] => []
  | fuel + 1, x :: xs => (x :: xs.take (n - 1)) :: chunksOfAux n fuel (xs.drop (n - 1))

/-- Rust `slice::chunks(n)` (for `n ≥ 1`), by fuel on the list length. -/
def chunksOf (n : Nat) (l : List Int) : List (List Int) := chunksOfAux n l.length l

/-- The `let metas = match ... ` arm: a 404 HTTP error becomes an empty
chunk, every other error is returned. -/
def fetch_or_empty (res : Except DLErr (List MatchMeta)) :
    Except DLErr (List MatchMeta) :=
  match res with
  | .ok m => .ok m
  | .error err =>
    match err with
    | .http status msg => if status = 404 then .ok [] else .error (.http status msg)
    | e => .error e

/-- The per-chunk fetch-and-ingest loop (`dry_run = false` persists). -/
def sync_chunks (fetch : List Int → Except DLErr (List MatchMeta)) (dryRun : Bool) :
    List (List Int) → Store → Nat → Nat → Except DLErr (Store × Nat × Nat)
  | [], s, tm, tp => .ok (s, tm, tp)
  | c :: rest, s, tm, tp =>
    match fetch_or_empty (fetch c) with
    | .error err => .error err
    | .ok metas =>
      if dryRun then sync_chunks fetch dryRun rest s tm tp
      else
        sync_chunks fetch dryRun rest (ingest_matches_batch s metas).1
          (tm + (ingest_matches_batch s metas).2.matches_upserted)
          (tp + (ingest_matches_batch s metas).2.match_players_upserted)

/-- The `matches sync` ingest phase over the deduplicated candidate ids. -/
def matches_sync_ingest (fetch : List Int → Except DLErr (List MatchMeta))
    (dryRun : Bool) (ids : List Int) (batch_size : Nat) (s : Store) :
    Except DLErr (Store × Nat × Nat) :=
  sync_chunks fetch dryRun (chunksOf (max batch_size 1) ids) s 0 0

/-- Is a fetch outcome either a success or the tolerated 404? -/
def okOr404 : Except DLErr (List MatchMeta) → Bool
  | .ok _ => true
  | .error (.http status _) => decide (status = 404)
  | .error _ => false

/-- The metas a chunk effectively contributes: its fetched records, or
nothing for a 404. -/
def effectiveMetas (res : Except DLErr (List MatchMeta)) : List MatchMeta :=
  match res with
  | .ok m => m
  | .error _ => []

/-- The reference fold: every chunk ingested normally with its effective
metas, stores threaded and totals accumulated. -/
def sync_fold (fetch : List Int → Except DLErr (List MatchMeta)) :
    List (List Int) → Store → Nat → Nat → Store × Nat × Nat
  | [], s, tm, tp => (s, tm, tp)
  | c :: rest, s, tm, tp =>
    sync_fold fetch rest
      (ingest_matches_batch s (effectiveMetas (fetch c))).1
      (tm + (ingest_matches_batch s (effectiveMetas (fetch c))).2.matches_upserted)
      (tp + (ingest_matches_batch s (effectiveMetas (fetch c))).2.match_players_upserted)

theorem sync_chunks_all_tolerated (fetch : List Int → Except DLErr (List MatchMeta))
    (chunks : List (List Int)) (s : Store) (tm tp : Nat)
    (H : ∀ c ∈ chunks, okOr404 (fetch c) = true) :
    sync_chunks fetch false chunks s tm tp = .ok (sync_fold fetch chunks s tm tp) := by
  induction chunks generalizing s tm tp with
  | nil => rfl
  | cons c rest ih =>
    have hc := H c (List.mem_cons_self _ _)
    have hrest : ∀ d ∈ rest, okOr404 (fetch d) = true :=
      fun d hd => H d (List.mem_cons_of_mem _ hd)
    cases hf : fetch c with
    | ok metas =>
      rw [sync_chunks, hf]
      rw [show fetch_or_empty (.ok metas) = .ok metas from rfl]
      rw [sync_fold, hf]
      exact ih _ _ _ hrest
    | error err =>
      rw [hf] at hc
      cases err with
      | http status msg =>
        have h404 : status = 404 := by
          simpa [okOr404] using hc
        rw [sync_chunks, hf]
        rw [show fetch_or_empty (.error (.http status msg))
              = .ok [] from by rw [fetch_or_empty, h404]; simp]
        rw [sync_fold, hf]
        rw [show effectiveMetas (Except.error (α := List MatchMeta) (.http status msg))
              = [] from rfl]
        exact ih _ _ _ hrest
      | rateLimited msg => simp [okOr404] at hc
      | other msg => simp [okOr404] at hc

/-! ## Claim C8: a 404 chunk is tolerated, later chunks ingest normally -/

/-- C8: when every chunk's fetch either succeeds or fails with HTTP 404,
the sync run succeeds: it equals the reference fold in which each chunk is
ingested with its effective metas — a 404 chunk contributes the empty
chunk, and ingesting an empty chunk returns the store unchanged with zero
counts, so a 404 chunk adds no rows and no totals while every subsequent
chunk is fetched and ingested normally and the totals aggregate over the
non-404 chunks. -/
theorem claim_C8_partial_chunk_tolerance
    (fetch : List Int → Except DLErr (List MatchMeta)) (ids : List Int)
    (batch_size : Nat) (s : Store)
    (H : ∀ c ∈ chunksOf (max batch_size 1) ids, okOr404 (fetch c) = true) :
    matches_sync_ingest fetch false ids batch_size s
      = .ok (sync_fold fetch (chunksOf (max batch_size 1) ids) s 0 0)
    ∧ (∀ u : Store, ingest_matches_batch u [] = (u, ⟨0, 0, 0⟩)) :=
  ⟨sync_chunks_all_tolerated fetch (chunksOf (max batch_size 1) ids) s 0 0 H,
   fun _ => rfl⟩

/-- A fetch oracle for the witness: the middle chunk 404s. -/
def fetch404 : List Int → Except DLErr (List MatchMeta) := fun c =>
  if c = [3, 4] then .error (.http 404 "no matches")
  else if c = [1, 2] then .ok [metaDupA]
  else .ok [metaDupB]

theorem claim_C8_partial_chunk_tolerance_witness :
    (∀ c ∈ chunksOf (max 2 1) [1, 2, 3, 4, 5], okOr404 (fetch404 c) = true)
    ∧ matches_sync_ingest fetch404 false [1, 2, 3, 4, 5] 2 Store.empty
      = .ok (sync_fold fetch404 (chunksOf (max 2 1) [1, 2, 3, 4, 5]) Store.empty 0 0) :=
  ⟨by decide,
   (claim_C8_partial_chunk_tolerance fetch404 [1, 2, 3, 4, 5] 2 Store.empty
      (by decide)).1⟩

/-! ## The chunk transaction (src/db.rs `ingest_matches_batch`) -/

inductive MatchDbOp where
  | matchUp : Int → MatchRow → MatchDbOp
  | stubUp : Int → PlayerRow → MatchDbOp
  | mpUp : Int × Int → MatchPlayerRow → MatchDbOp

/-- The upserts one record contributes, in execution order. -/
def matchDbOpsOfMeta (m : MatchMeta) : List MatchDbOp :=
  .matchUp m.match_id (matchRowOf m) ::
    (playersOf m).flatMap (fun p =>
      [.stubUp p.account_id (stubPlayerRow p.account_id),
       .mpUp (m.match_id, p.account_id) (matchPlayerRowOf p)])

/-- All upserts of one chunk, in execution order. -/
def matchDbOpsOf (metas : List MatchMeta) : List MatchDbOp :=
  metas.flatMap matchDbOpsOfMeta

def applyMatchDbOp (s : Store) : MatchDbOp → Store
  | .matchUp k r => { s with matches_table := s.matches_table.upsert mergeMatch k r }
  | .stubUp k r => { s with players := s.players.upsert keepFirst k r }
  | .mpUp k r => { s with match_players := s.match_players.upsert mergeMatchPlayer k r }

/-- Run the chunk's upserts inside the transaction: `fail i` is the
database outcome of the i-th statement (`?` aborts on the first error). -/
def execTxOps (fail : Nat → Option String) :
    List MatchDbOp → Nat → Store → Except String Store
  | [], _, tx => .ok tx
  | op :: ops, i, tx =>
    match fail i with
    | some e => .error e
    | none => execTxOps fail ops (i + 1) (applyMatchDbOp tx op)

/-- `ingest_matches_batch` with the sqlx transaction explicit: `begin`
gives the transaction the durable state, every statement runs inside it,
and only the final `commit` publishes the transaction back; a failed
statement makes the function return the error before `commit`, so the
dropped transaction leaves the durable store untouched. Result: the
returned value and the durable store after the call. -/
def ingest_matches_batch_tx (fail : Nat → Option String) (durable : Store)
    (metas : List MatchMeta) : Except String MatchesIngestResult × Store :=
  match execTxOps fail (matchDbOpsOf metas) 0 durable with
  | .error e => (.error e, durable)
  | .ok tx => (.ok (ingest_matches_batch durable metas).2, tx)

theorem execTxOps_all_ok (fail : Nat → Option String) (ops : List MatchDbOp)
    (i : Nat) (tx : Store) (H : ∀ j, j < ops.length → fail (i + j) = none) :
    execTxOps fail ops i tx = .ok (ops.foldl applyMatchDbOp tx) := by
  induction ops generalizing i tx with
  | nil => rfl
  | cons op ops ih =>
    have h0 : fail i = none := by simpa using H 0 (by simp)
    rw [execTxOps, h0]
    rw [List.foldl_cons]
    exact ih (i + 1) _ (fun j hj => by
      have := H (j + 1) (by simpa using Nat.succ_lt_succ hj)
      rwa [show i + (j + 1) = i + 1 + j from by omega] at this)

theorem execTxOps_fails (fail : Nat → Option String) (ops : List MatchDbOp)
    (i : Nat) (tx : Store) (H : ∃ j, j < ops.length ∧ (fail (i + j)).isSome) :
    ∃ e, execTxOps fail ops i tx = .error e := by
  induction ops generalizing i tx with
  | nil =>
    rcases H with ⟨j, hj, _⟩
    simp at hj
  | cons op ops ih =>
    cases hfi : fail i with
    | some e => exact ⟨e, by rw [execTxOps, hfi]⟩
    | none =>
      rcases H with ⟨j, hj, hsome⟩
      cases j with
      | zero =>
        rw [show i + 0 = i from rfl, hfi] at hsome
        cases hsome
      | succ j =>
        rcases ih (i + 1) (applyMatchDbOp tx op)
          ⟨j, by simpa using Nat.lt_of_succ_lt_succ hj,
           by rwa [show i + 1 + j = i + (j + 1) from by omega]⟩ with ⟨e, he⟩
        exact ⟨e, by rw [execTxOps, hfi]; exact he⟩

theorem applyDbOps_players (mid : Int) (ps : List PlayerInMatch) (s : Store) :
    (ps.flatMap (fun p =>
        [MatchDbOp.stubUp p.account_id (stubPlayerRow p.account_id),
         MatchDbOp.mpUp (mid, p.account_id) (matchPlayerRowOf p)])).foldl
          applyMatchDbOp s
      = { s with
          players := Table.applyOps keepFirst
            (ps.map (fun p => (p.account_id, stubPlayerRow p.account_id))) s.players
          match_players := Table.applyOps mergeMatchPlayer
            (ps.map (fun p => ((mid, p.account_id), matchPlayerRowOf p)))
            s.match_players } := by
  induction ps generalizing s with
  | nil => rfl
  | cons p ps ih =>
    rw [List.flatMap_cons, List.foldl_append]
    rw [show [MatchDbOp.stubUp p.account_id (stubPlayerRow p.account_id),
          MatchDbOp.mpUp (mid, p.account_id) (matchPlayerRowOf p)].foldl
            applyMatchDbOp s
        = applyMatchDbOp (applyMatchDbOp s
            (.stubUp p.account_id (stubPlayerRow p.account_id)))
            (.mpUp (mid, p.account_id) (matchPlayerRowOf p)) from rfl]
    rw [ih]
    rw [List.map_cons, List.map_cons, Table.applyOps_cons, Table.applyOps_cons]
    rfl

theorem applyDbOps_store (metas : List MatchMeta) (s : Store) :
    (matchDbOpsOf metas).foldl applyMatchDbOp s
      = { s with
          matches_table := Table.applyOps mergeMatch (matchOpsOf metas) s.matches_table
          players := Table.applyOps keepFirst (stubOpsOf metas) s.players
          match_players := Table.applyOps mergeMatchPlayer (mpOpsOf metas)
            s.match_players } := by
  induction metas generalizing s with
  | nil => rfl
  | cons m metas ih =>
    rw [show matchDbOpsOf (m :: metas) = matchDbOpsOfMeta m ++ matchDbOpsOf metas
      from List.flatMap_cons _ _ _]
    rw [List.foldl_append]
    rw [show matchDbOpsOfMeta m
        = .matchUp m.match_id (matchRowOf m) ::
            (playersOf m).flatMap (fun p =>
              [MatchDbOp.stubUp p.account_id (stubPlayerRow p.account_id),
               MatchDbOp.mpUp (m.match_id, p.account_id) (matchPlayerRowOf p)])
      from rfl]
    rw [List.foldl_cons]
    rw [show applyMatchDbOp s (.matchUp m.match_id (matchRowOf m))
        = { s with matches_table :=
            s.matches_table.upsert mergeMatch m.match_id (matchRowOf m) } from rfl]
    rw [applyDbOps_players m.match_id (playersOf m), ih]
    rw [matchOpsOf_cons, Table.applyOps_cons, stubOpsOf_cons,
      Table.applyOps_append, mpOpsOf_cons, Table.applyOps_append]

theorem applyDbOps_eq_ingest (metas : List MatchMeta) (s : Store) :
    (matchDbOpsOf metas).foldl applyMatchDbOp s = (ingest_matches_batch s metas).1 := by
  rw [applyDbOps_store, ingest_matches_batch_store]

/-! ## Claim C9: a chunk commits atomically -/

/-- C9: one chunk's records, nested sub-records and participant stubs are
committed in a single transaction: if any statement of the chunk fails,
`ingest_matches_batch` returns the error and the durable store is exactly
what it was before the call (no row of the chunk is stored); if no
statement fails, the durable store after the call is exactly the pure
ingest result (all of the chunk's rows are stored) and the counts are
returned. -/
theorem claim_C9_chunk_transaction_atomic (fail : Nat → Option String)
    (s : Store) (metas : List MatchMeta) :
    ((∃ j, j < (matchDbOpsOf metas).length ∧ (fail j).isSome) →
      (∃ e, (ingest_matches_batch_tx fail s metas).1 = .error e)
      ∧ (ingest_matches_batch_tx fail s metas).2 = s)
    ∧ ((∀ j, j < (matchDbOpsOf metas).length → fail j = none) →
      (ingest_matches_batch_tx fail s metas).1
        = .ok (ingest_matches_batch s metas).2
      ∧ (ingest_matches_batch_tx fail s metas).2
        = (ingest_matches_batch s metas).1) := by
  constructor
  · intro H
    rcases execTxOps_fails fail (matchDbOpsOf metas) 0 s
      (by rcases H with ⟨j, hj, hs⟩; exact ⟨j, hj, by simpa using hs⟩) with ⟨e, he⟩
    rw [ingest_matches_batch_tx, he]
    exact ⟨⟨e, rfl⟩, rfl⟩
  · intro H
    rw [ingest_matches_batch_tx,
      execTxOps_all_ok fail (matchDbOpsOf metas) 0 s
        (fun j hj => by simpa using H j hj)]
    exact ⟨rfl, applyDbOps_eq_ingest metas s⟩

def failAtOne : Nat → Option String := fun j => if j = 1 then some "disk full" else none

theorem claim_C9_chunk_transaction_atomic_witness :
    (1 < (matchDbOpsOf [metaDupA]).length ∧ (failAtOne 1).isSome)
    ∧ (ingest_matches_batch_tx failAtOne Store.empty [metaDupA]).2 = Store.empty :=
  ⟨⟨by decide, by decide⟩,
   ((claim_C9_chunk_transaction_atomic failAtOne Store.empty [metaDupA]).1
      ⟨1, by decide, by decide⟩).2⟩

end DeadlockCLI
